import Mathlib

/-!
Verification of the browser token-extraction subsystem of akiflow-cli
(`src/lib/auth/extract-token.ts` and `src/lib/auth/browser-paths.ts`).

The TypeScript source is shallowly embedded: byte buffers become `List Nat`
(each entry a byte value), JavaScript strings become `String`, thrown
exceptions become `Except Unit`, `Date` timestamps become `Int` milliseconds,
and the ambient filesystem / keychain / SQLite state consumed by each
function becomes an explicit environment record.  The cryptographic and
JSON primitives the code calls (`crypto.subtle` raw AES-128-CBC, PBKDF2,
`JSON.parse`) are taken as function parameters; everything the source
itself computes around them (version-tag dispatch, WebCrypto PKCS#7
handling, padding re-stripping, bounds checks, filtering, deduplication,
sorting) is modelled concretely.
-/

/-! ## Byte and string utilities -/

instance {ε α : Type _} [DecidableEq ε] [DecidableEq α] : DecidableEq (Except ε α) := fun a b =>
  match a, b with
  | .error x, .error y =>
    if h : x = y then isTrue (congrArg Except.error h)
    else isFalse (fun hh => h (Except.error.inj hh))
  | .ok x, .ok y =>
    if h : x = y then isTrue (congrArg Except.ok h)
    else isFalse (fun hh => h (Except.ok.inj hh))
  | .error _, .ok _ => isFalse (fun hh => Except.noConfusion hh)
  | .ok _, .error _ => isFalse (fun hh => Except.noConfusion hh)

/-- Lower-case one ASCII character (SQLite `LIKE` is ASCII case-insensitive). -/
def toLowerAscii (c : Char) : Char :=
  if 'A' ≤ c ∧ c ≤ 'Z' then Char.ofNat (c.toNat + 32) else c

/-- Lower-case the ASCII letters of a string. -/
def strLowerAscii (s : String) : String := String.mk (s.data.map toLowerAscii)

/-- Does `hay` contain `needle` as a contiguous subsequence? -/
def listContainsSeq (needle : List Char) : List Char → Bool
  | [] => needle.isEmpty
  | c :: rest => needle.isPrefixOf (c :: rest) || listContainsSeq needle rest

/-- JavaScript `hay.includes(needle)` (case-sensitive substring test). -/
def strIncludes (hay needle : String) : Bool := listContainsSeq needle.data hay.data

/-- JavaScript `s.startsWith(pre)`. -/
def strStartsWith (s pre : String) : Bool := pre.data.isPrefixOf s.data

/-- JavaScript `s.endsWith(suf)`. -/
def strEndsWith (s suf : String) : Bool := suf.data.isSuffixOf s.data

/-- JavaScript `s.split(sep)` for a one-character separator: split at every
occurrence, keeping empty pieces (`"a..b".split(".") = ["a","","b"]`). -/
def jsSplitChars (sep : Char) : List Char → List (List Char)
  | [] => [[]]
  | c :: rest =>
    if c = sep then [] :: jsSplitChars sep rest
    else
      match jsSplitChars sep rest with
      | g :: gs => (c :: g) :: gs
      | [] => [[c]]

/-- JavaScript `s.split(sep)` for a one-character separator string. -/
def jsSplit (sep : Char) (s : String) : List String :=
  (jsSplitChars sep s.data).map String.mk

/-- SQLite `hay LIKE '%needle%'` (ASCII case-insensitive substring test). -/
def likeContains (hay needle : String) : Bool :=
  strIncludes (strLowerAscii hay) (strLowerAscii needle)

/-- SQLite `hay LIKE 'needle%'` (ASCII case-insensitive prefix test). -/
def likeStartsWith (hay needle : String) : Bool :=
  (strLowerAscii needle).data.isPrefixOf (strLowerAscii hay).data

/-- Effective element count of JavaScript `typedArray.slice(0, e)` on an
array of length `len`: a negative `e` counts back from the end, clamped at 0. -/
def jsSliceEnd (len : Nat) (e : Int) : Nat :=
  if e < 0 then ((len : Int) + e).toNat else min len e.toNat

/-- Is `b` a UTF-8 continuation byte (0x80–0xBF)? -/
def utf8Cont (b : Nat) : Bool := 0x80 ≤ b && b ≤ 0xBF

/-- The U+FFFD replacement character emitted by a non-fatal `TextDecoder`. -/
def replChar : Char := Char.ofNat 0xFFFD

/-- WHATWG UTF-8 decode with replacement (the behaviour of
`new TextDecoder().decode(...)`, which never throws): malformed sequences
emit U+FFFD and the offending byte is reconsidered as a fresh lead byte.
The first argument is fuel; every step consumes at least one byte, so fuel
equal to the byte count is always enough. -/
def utf8DecodeCharsF : Nat → List Nat → List Char
  | 0, _ => []
  | _, [] => []
  | fuel + 1, b :: rest =>
    if b < 0x80 then Char.ofNat b :: utf8DecodeCharsF fuel rest
    else if 0xC2 ≤ b && b ≤ 0xDF then
      match rest with
      | [] => [replChar]
      | c1 :: rest1 =>
        if utf8Cont c1 then
          Char.ofNat ((b - 0xC0) * 0x40 + (c1 - 0x80)) :: utf8DecodeCharsF fuel rest1
        else replChar :: utf8DecodeCharsF fuel rest
    else if 0xE0 ≤ b && b ≤ 0xEF then
      match rest with
      | [] => [replChar]
      | c1 :: rest1 =>
        if (if b = 0xE0 then 0xA0 else 0x80) ≤ c1 && c1 ≤ (if b = 0xED then 0x9F else 0xBF) then
          match rest1 with
          | [] => [replChar]
          | c2 :: rest2 =>
            if utf8Cont c2 then
              Char.ofNat ((b - 0xE0) * 0x1000 + (c1 - 0x80) * 0x40 + (c2 - 0x80)) ::
                utf8DecodeCharsF fuel rest2
            else replChar :: utf8DecodeCharsF fuel rest1
        else replChar :: utf8DecodeCharsF fuel rest
    else if 0xF0 ≤ b && b ≤ 0xF4 then
      match rest with
      | [] => [replChar]
      | c1 :: rest1 =>
        if (if b = 0xF0 then 0x90 else 0x80) ≤ c1 && c1 ≤ (if b = 0xF4 then 0x8F else 0xBF) then
          match rest1 with
          | [] => [replChar]
          | c2 :: rest2 =>
            if utf8Cont c2 then
              match rest2 with
              | [] => [replChar]
              | c3 :: rest3 =>
                if utf8Cont c3 then
                  Char.ofNat ((b - 0xF0) * 0x40000 + (c1 - 0x80) * 0x1000 +
                      (c2 - 0x80) * 0x40 + (c3 - 0x80)) :: utf8DecodeCharsF fuel rest3
                else replChar :: utf8DecodeCharsF fuel rest2
            else replChar :: utf8DecodeCharsF fuel rest1
        else replChar :: utf8DecodeCharsF fuel rest
    else replChar :: utf8DecodeCharsF fuel rest

/-- Non-fatal UTF-8 decode of a byte list into a string. -/
def utf8DecodeLossy (bs : List Nat) : String := String.mk (utf8DecodeCharsF bs.length bs)

/-- UTF-8 encode a string into a byte list (`new TextEncoder().encode(...)`). -/
def utf8Encode (s : String) : List Nat := s.toUTF8.toList.map (·.toNat)

/-! ## WebCrypto AES-CBC decryption and the Chrome value format

`crypto.subtle.decrypt({name:"AES-CBC", iv}, key, ct)` per the Web
Cryptography specification: the ciphertext length must be a nonzero
multiple of 16; the raw CBC decryption is then PKCS#7-unpadded, and an
invalid padding byte raises `OperationError`.  The raw keyed CBC
decryption itself (AES under the given key and IV) is a parameter
`rawCBC : key → iv → ct → padded plaintext` of the model. -/

/-- PKCS#7 pad a byte list to a multiple of 16 bytes. -/
def pkcs7pad (bs : List Nat) : List Nat :=
  bs ++ List.replicate (16 - bs.length % 16) (16 - bs.length % 16)

/-- Strict PKCS#7 unpadding as performed inside WebCrypto AES-CBC decrypt:
the final byte `p` must satisfy `1 ≤ p ≤ 16`, fit in the data, and the
last `p` bytes must all equal `p`. -/
def pkcs7unpad (bs : List Nat) : Option (List Nat) :=
  match bs.getLast? with
  | none => none
  | some p =>
    if p = 0 ∨ 16 < p ∨ bs.length < p then none
    else if (bs.drop (bs.length - p)).all (· = p) then some (bs.take (bs.length - p))
    else none

/-- `crypto.subtle.decrypt` for AES-CBC: length check, raw CBC decryption
(abstracted as `rawD`), strict PKCS#7 unpad; any violation throws. -/
def subtleDecryptCBC (rawD : List Nat → List Nat) (ct : List Nat) :
    Except Unit (List Nat) :=
  if ct.length = 0 ∨ ct.length % 16 ≠ 0 then .error ()
  else
    match pkcs7unpad (rawD ct) with
    | none => .error ()
    | some pt => .ok pt

/-- Constants from `extract-token.ts`. -/
def AKIFLOW_DOMAIN : String := "akiflow.com"

/-- Cookie-name filter constant from `extract-token.ts`. -/
def COOKIE_NAME_PATTERN : String := "remember_web_"

/-- `decryptChromeValue(encryptedValue, key)`: values shorter than 3 bytes
yield `null`; a value whose first three bytes are not `v10`/`v11` is decoded
as UTF-8 unchanged; otherwise the tag is stripped, the remainder is passed to
WebCrypto AES-CBC decryption under the fixed all-space IV, and the code then
strips `decrypted[len-1]` further bytes with `slice` (its own "PKCS7"
removal) before decoding.  A thrown `OperationError` propagates (`.error`). -/
def decryptChromeValue (rawCBC : List Nat → List Nat → List Nat → List Nat)
    (encryptedValue : List Nat) (key : List Nat) : Except Unit (Option String) :=
  if encryptedValue.length < 3 then .ok none
  else
    let tag := [encryptedValue.getD 0 0, encryptedValue.getD 1 0, encryptedValue.getD 2 0]
    if tag ≠ [118, 49, 48] ∧ tag ≠ [118, 49, 49] then
      .ok (some (utf8DecodeLossy encryptedValue))
    else
      let ct := encryptedValue.drop 3
      match subtleDecryptCBC (rawCBC key (List.replicate 16 0x20)) ct with
      | .error e => .error e
      | .ok db =>
        let padLen := (db.getLast?).getD 0
        let keep := jsSliceEnd db.length ((db.length : Int) - (padLen : Int))
        .ok (some (utf8DecodeLossy (db.take keep)))

/-! ## Data model -/

/-- `ExtractedToken` from `extract-token.ts`; `expiresAt` is an optional
timestamp in milliseconds. -/
structure ExtractedToken where
  browser : String
  token : String
  source : String
  expiresAt : Option Int := none
deriving DecidableEq, Repr

/-- `BrowserPath` from `browser-paths.ts`. -/
structure BrowserPath where
  id : String
  name : String
  cookiePath : String
  indexedDBPath : Option String
  encryptionMethod : String
deriving DecidableEq, Repr

/-- One row of the snapshot's `cookies` table; a SQL `NULL` value column is
modelled as `""` and a `NULL` blob as `[]` (both are falsy in the JS code). -/
structure CookieRow where
  name : String
  value : String
  encrypted_value : List Nat
  host_key : String
deriving DecidableEq, Repr

/-- The SQL filter of `extractFromChrome`:
`host_key LIKE '%akiflow.com%' AND name LIKE 'remember_web_%'`. -/
def rowMatchesQuery (r : CookieRow) : Bool :=
  likeContains r.host_key AKIFLOW_DOMAIN && likeStartsWith r.name COOKIE_NAME_PATTERN

/-- Ambient state consumed by `extractFromChrome`: whether the cookie store
file exists, what `getKeychainPassword` returns (`none` for `null`), and the
rows of the snapshot's `cookies` table. -/
structure ChromeEnv where
  cookieFileExists : Bool
  keychainPassword : Option String
  dbRows : List CookieRow
deriving Repr

/-- Result of one `extractFromChrome` call: the returned list or the
propagated exception, plus whether the temporary snapshot copy still exists
on disk after the call. -/
structure ChromeOutcome where
  result : Except Unit (List ExtractedToken)
  snapshotLeft : Bool
deriving Repr

/-- The body of the per-row loop of `extractFromChrome`: try the encrypted
value (when the blob is nonempty), fall back to the plaintext `value` column
when the decrypted result is falsy (`null` or `""`), and emit a token only
for a truthy final value.  A decryption exception propagates. -/
def processChromeRow (rawCBC : List Nat → List Nat → List Nat → List Nat)
    (key : List Nat) (bp : BrowserPath) (row : CookieRow) :
    Except Unit (Option ExtractedToken) :=
  match (if 0 < row.encrypted_value.length
         then decryptChromeValue rawCBC row.encrypted_value key
         else .ok none) with
  | .error e => .error e
  | .ok tv1 =>
    match (if (tv1 = none ∨ tv1 = some "") ∧ row.value ≠ "" then some row.value else tv1) with
    | none => .ok none
    | some s =>
      if s = "" then .ok none
      else .ok (some { browser := bp.id, token := s, source := bp.cookiePath })

/-- The `for (const row of rows)` loop of `extractFromChrome`, in row order;
the first thrown exception aborts the whole loop. -/
def chromeRowsLoop (rawCBC : List Nat → List Nat → List Nat → List Nat)
    (key : List Nat) (bp : BrowserPath) : List CookieRow → Except Unit (List ExtractedToken)
  | [] => .ok []
  | r :: rest =>
    match processChromeRow rawCBC key bp r with
    | .error e => .error e
    | .ok none => chromeRowsLoop rawCBC key bp rest
    | .ok (some t) =>
      match chromeRowsLoop rawCBC key bp rest with
      | .error e => .error e
      | .ok ts => .ok (t :: ts)

/-- `extractFromChrome(browserPath)`.  Missing store file or falsy keychain
password return empty before the snapshot copy is made.  Otherwise the
snapshot is created, the filtered rows are processed, and `unlinkSync` runs
only on the straight-line exit: an exception thrown by a row skips the
cleanup, leaving the snapshot behind. -/
def extractFromChrome (rawCBC : List Nat → List Nat → List Nat → List Nat)
    (deriveKeyF : String → List Nat) (env : ChromeEnv) (bp : BrowserPath) : ChromeOutcome :=
  if ¬ env.cookieFileExists then ⟨.ok [], false⟩
  else
    match env.keychainPassword with
    | none => ⟨.ok [], false⟩
    | some pw =>
      if pw = "" then ⟨.ok [], false⟩
      else
        match chromeRowsLoop rawCBC (deriveKeyF pw) bp (env.dbRows.filter rowMatchesQuery) with
        | .error e => ⟨.error e, true⟩
        | .ok toks => ⟨.ok toks, false⟩

/-! ## Safari binary cookie parsing (`extractFromSafari`, `parseSafariCookie`)

`DataView.getUint32` and the typed-array constructors throw `RangeError`
when the requested range leaves the underlying buffer; those throws are
modelled as `.error ()`. -/

/-- `DataView.getUint32(off, false)` (big-endian) directly on a buffer. -/
def readU32BE (bs : List Nat) (off : Nat) : Except Unit Nat :=
  if off + 4 ≤ bs.length then
    .ok (bs.getD off 0 * 0x1000000 + bs.getD (off + 1) 0 * 0x10000 +
         bs.getD (off + 2) 0 * 0x100 + bs.getD (off + 3) 0)
  else .error ()

/-- Little-endian 32-bit read directly on a buffer. -/
def readU32LE (bs : List Nat) (off : Nat) : Except Unit Nat :=
  if off + 4 ≤ bs.length then
    .ok (bs.getD off 0 + bs.getD (off + 1) 0 * 0x100 +
         bs.getD (off + 2) 0 * 0x10000 + bs.getD (off + 3) 0 * 0x1000000)
  else .error ()

/-- A `DataView(buffer, start, size)` window. -/
structure ByteWindow where
  bytes : List Nat
  start : Nat
  size : Nat

/-- The `DataView` constructor: throws when the window leaves the buffer. -/
def mkDataView (bs : List Nat) (start size : Nat) : Except Unit ByteWindow :=
  if start + size ≤ bs.length then .ok ⟨bs, start, size⟩ else .error ()

/-- `view.getUint32(off, true)`: bounds-checked against the window size. -/
def ByteWindow.getU32LE (w : ByteWindow) (off : Nat) : Except Unit Nat :=
  if off + 4 ≤ w.size then readU32LE w.bytes (w.start + off) else .error ()

/-- The `readString` closure of `parseSafariCookie`:
`new Uint8Array(buffer, byteOffset + cookieOffset + stringOffset)` throws
when the start offset exceeds the buffer, and otherwise extends to the END
OF THE WHOLE BUFFER (not the record or page), scanning to the first NUL. -/
def safariReadString (w : ByteWindow) (cookieOffset stringOffset : Nat) :
    Except Unit String :=
  if w.start + cookieOffset + stringOffset ≤ w.bytes.length then
    .ok (utf8DecodeLossy
      ((w.bytes.drop (w.start + cookieOffset + stringOffset)).takeWhile (· ≠ 0)))
  else .error ()

/-- A parsed Safari cookie record. -/
structure SafariCookie where
  name : String
  value : String
  domain : String
  path : String
deriving DecidableEq, Repr

/-- `parseSafariCookie(pageData, cookieOffset, pageSize)`: returns `none`
(skip the record) when the 48-byte header region or the declared cookie size
leaves the page; reads the four string pointers and dereferences them with
the unbounded `readString`. -/
def parseSafariCookie (pageData : ByteWindow) (cookieOffset pageSize : Nat) :
    Except Unit (Option SafariCookie) :=
  if pageSize < cookieOffset + 48 then .ok none
  else
    match pageData.getU32LE cookieOffset with
    | .error e => .error e
    | .ok cookieSize =>
      if pageSize < cookieOffset + cookieSize then .ok none
      else
        match pageData.getU32LE (cookieOffset + 16) with
        | .error e => .error e
        | .ok domainOffset =>
          match pageData.getU32LE (cookieOffset + 20) with
          | .error e => .error e
          | .ok nameOffset =>
            match pageData.getU32LE (cookieOffset + 24) with
            | .error e => .error e
            | .ok pathOffset =>
              match pageData.getU32LE (cookieOffset + 28) with
              | .error e => .error e
              | .ok valueOffset =>
                match safariReadString pageData cookieOffset domainOffset with
                | .error e => .error e
                | .ok d =>
                  match safariReadString pageData cookieOffset nameOffset with
                  | .error e => .error e
                  | .ok n =>
                    match safariReadString pageData cookieOffset pathOffset with
                    | .error e => .error e
                    | .ok p =>
                      match safariReadString pageData cookieOffset valueOffset with
                      | .error e => .error e
                      | .ok v => .ok (some ⟨n, v, d, p⟩)

/-- Read `count` big-endian page sizes starting at `off` (the page-size
table loop of `extractFromSafari`). -/
def readPageSizes (bs : List Nat) : Nat → Nat → Except Unit (List Nat)
  | 0, _ => .ok []
  | count + 1, off =>
    match readU32BE bs off with
    | .error e => .error e
    | .ok s =>
      match readPageSizes bs count (off + 4) with
      | .error e => .error e
      | .ok rest => .ok (s :: rest)

/-- Read `count` little-endian cookie offsets starting at window position
`pos` (the cookie-offset table loop). -/
def readCookieOffsets (w : ByteWindow) : Nat → Nat → Except Unit (List Nat)
  | 0, _ => .ok []
  | count + 1, pos =>
    match w.getU32LE pos with
    | .error e => .error e
    | .ok o =>
      match readCookieOffsets w count (pos + 4) with
      | .error e => .error e
      | .ok rest => .ok (o :: rest)

/-- The per-cookie filter and push of `extractFromSafari`, folded over the
cookie-offset table of one page. -/
def safariCookiesLoop (pageData : ByteWindow) (pageSize : Nat) (cookiePath : String) :
    List Nat → Except Unit (List ExtractedToken)
  | [] => .ok []
  | co :: rest =>
    match parseSafariCookie pageData co pageSize with
    | .error e => .error e
    | .ok oc =>
      let here : List ExtractedToken :=
        match oc with
        | some ck =>
          if strIncludes ck.domain AKIFLOW_DOMAIN && strStartsWith ck.name COOKIE_NAME_PATTERN
          then [{ browser := "safari", token := ck.value, source := cookiePath }]
          else []
        | none => []
      match safariCookiesLoop pageData pageSize cookiePath rest with
      | .error e => .error e
      | .ok ts => .ok (here ++ ts)

/-- Process one page: construct its `DataView`, check the page marker
`0x00000100` (mismatch skips the page), read the cookie count and offsets,
and run the cookie loop. -/
def safariProcessPage (bs : List Nat) (cookiePath : String) (pageStart pageSize : Nat) :
    Except Unit (List ExtractedToken) :=
  match mkDataView bs pageStart pageSize with
  | .error e => .error e
  | .ok pageData =>
    match pageData.getU32LE 0 with
    | .error e => .error e
    | .ok pageHeader =>
      if pageHeader ≠ 0x00000100 then .ok []
      else
        match pageData.getU32LE 4 with
        | .error e => .error e
        | .ok numCookies =>
          match readCookieOffsets pageData numCookies 8 with
          | .error e => .error e
          | .ok offs => safariCookiesLoop pageData pageSize cookiePath offs

/-- The page loop of `extractFromSafari`; a zero page size is falsy and
skipped without advancing the offset. -/
def safariPagesLoop (bs : List Nat) (cookiePath : String) :
    List Nat → Nat → Except Unit (List ExtractedToken)
  | [], _ => .ok []
  | ps :: rest, off =>
    if ps = 0 then safariPagesLoop bs cookiePath rest off
    else
      match safariProcessPage bs cookiePath off ps with
      | .error e => .error e
      | .ok toks =>
        match safariPagesLoop bs cookiePath rest (off + ps) with
        | .error e => .error e
        | .ok more => .ok (toks ++ more)

/-- `extractFromSafari(browserPath)` on the bytes of the cookie-store file
(`fileExists` models the `existsSync` guard).  The magic comparison uses
`bytes[i] ?? 0` and so never throws; everything after it may. -/
def extractFromSafari (bs : List Nat) (fileExists : Bool) (bp : BrowserPath) :
    Except Unit (List ExtractedToken) :=
  if ¬ fileExists then .ok []
  else if [bs.getD 0 0, bs.getD 1 0, bs.getD 2 0, bs.getD 3 0] ≠ [0x63, 0x6F, 0x6F, 0x6B]
  then .ok []
  else
    match readU32BE bs 4 with
    | .error e => .error e
    | .ok numPages =>
      match readPageSizes bs numPages 8 with
      | .error e => .error e
      | .ok pageSizes => safariPagesLoop bs bp.cookiePath pageSizes (8 + 4 * numPages)

/-! ## IndexedDB log-segment scanning (`extractFromIndexedDB`)

The regex `JWT_RS256_PATTERN` is the literal base64 header
`eyJ0eXAiOiJKV1QiLCJhbGciOiJSUzI1NiJ9` followed by `\.[A-Za-z0-9_-]+`
twice, matched globally left-to-right without overlap. -/

/-- The literal header of `JWT_RS256_PATTERN`. -/
def JWT_HEADER : List Char := "eyJ0eXAiOiJKV1QiLCJhbGciOiJSUzI1NiJ9".data

/-- The character class `[A-Za-z0-9_-]` of the pattern. -/
def isB64UrlChar (c : Char) : Bool :=
  ('A' ≤ c && c ≤ 'Z') || ('a' ≤ c && c ≤ 'z') || ('0' ≤ c && c ≤ '9') || c = '_' || c = '-'

/-- Try to match `JWT_RS256_PATTERN` anchored at the start of `cs`,
returning the matched text and the remainder after it.  Both repetition
segments are maximal runs (the class excludes `.` so the greedy match never
backtracks into a success). -/
def tryMatchJWT (cs : List Char) : Option (List Char × List Char) :=
  if JWT_HEADER.isPrefixOf cs then
    match cs.drop JWT_HEADER.length with
    | '.' :: r1 =>
      if (r1.takeWhile isB64UrlChar).isEmpty then none
      else
        match r1.drop (r1.takeWhile isB64UrlChar).length with
        | '.' :: r2 =>
          if (r2.takeWhile isB64UrlChar).isEmpty then none
          else some (JWT_HEADER ++ '.' :: r1.takeWhile isB64UrlChar ++
                       '.' :: r2.takeWhile isB64UrlChar,
                     r2.drop (r2.takeWhile isB64UrlChar).length)
        | _ => none
    | _ => none
  else none

/-- `str.matchAll(JWT_RS256_PATTERN)` over a character list: scan positions
left to right, emit each match and resume after it.  Fuel bounds the scan;
each step consumes at least one character, so the character count is always
enough fuel. -/
def scanJWTsF : Nat → List Char → List String
  | 0, _ => []
  | _, [] => []
  | fuel + 1, c :: rest =>
    match tryMatchJWT (c :: rest) with
    | some (m, rem) => String.mk m :: scanJWTsF fuel rem
    | none => scanJWTsF fuel rest

/-- All matches of `JWT_RS256_PATTERN` in a string, in order. -/
def jwtMatches (s : String) : List String := scanJWTsF s.data.length s.data

/-- Base64 alphabet value of a character (`atob` alphabet: `A-Za-z0-9+/`). -/
def b64Val (c : Char) : Option Nat :=
  if 'A' ≤ c && c ≤ 'Z' then some (c.toNat - 65)
  else if 'a' ≤ c && c ≤ 'z' then some (c.toNat - 97 + 26)
  else if '0' ≤ c && c ≤ '9' then some (c.toNat - 48 + 52)
  else if c = '+' then some 62
  else if c = '/' then some 63
  else none

/-- Decode a list of 6-bit values into bytes, discarding leftover bits. -/
def b64Groups : List Nat → List Nat
  | a :: b :: c :: d :: rest =>
    (a * 4 + b / 16) :: ((b % 16) * 16 + c / 4) :: ((c % 4) * 64 + d) :: b64Groups rest
  | [a, b] => [a * 4 + b / 16]
  | [a, b, c] => [a * 4 + b / 16, (b % 16) * 16 + c / 4]
  | _ => []

/-- `atob` (forgiving-base64): strip ASCII whitespace, strip up to two
trailing `=` when the length is a multiple of four, fail on a remainder of
one or on any character outside the base64 alphabet, and decode.  `none`
models the thrown `InvalidCharacterError`; note that base64url characters
`-` and `_` are NOT in the `atob` alphabet. -/
def atobBytes (s : String) : Option (List Nat) :=
  let cs0 := s.data.filter (fun c =>
    ¬ (c = Char.ofNat 9 ∨ c = Char.ofNat 10 ∨ c = Char.ofNat 12 ∨
       c = Char.ofNat 13 ∨ c = ' '))
  let cs :=
    if cs0.length % 4 = 0 then
      if (cs0.reverse.takeWhile (· = '=')).length ≥ 2 then cs0.take (cs0.length - 2)
      else if (cs0.reverse.takeWhile (· = '=')).length = 1 then cs0.take (cs0.length - 1)
      else cs0
    else cs0
  if cs.length % 4 = 1 then none
  else
    match cs.mapM b64Val with
    | none => none
    | some vals => some (b64Groups vals)

/-- `parseJWTExpiration(token)`: split on `.`, require exactly three parts
with a truthy middle, `atob` it, `JSON.parse` the resulting byte string
(abstracted as the `parseJson` parameter, returning the `exp` claim as an
integer number when present), and require a truthy `exp`; every thrown
error is caught and yields `undefined`.  The result is milliseconds
(`exp * 1000`). -/
def parseJWTExpiration (parseJson : List Nat → Except Unit (Option Int))
    (token : String) : Option Int :=
  let parts := jsSplit '.' token
  if parts.length ≠ 3 then none
  else
    match parts.getD 1 "" with
    | p1 =>
      if p1 = "" then none
      else
        match atobBytes p1 with
        | none => none
        | some bytes =>
          match parseJson bytes with
          | .error _ => none
          | .ok none => none
          | .ok (some e) => if e ≠ 0 then some (e * 1000) else none

/-- One file of the Akiflow IndexedDB directory as the scanner observes it:
its name, whether `statSync(...).isFile()` holds, whether `readFileSync`
succeeds, and the UTF-8-decoded content when it does. -/
structure IdbFile where
  name : String
  isFile : Bool
  readable : Bool
  content : String
deriving Repr

/-- Ambient state consumed by `extractFromIndexedDB`: whether the Akiflow
IndexedDB folder exists and its directory listing in `readdirSync` order. -/
structure IdbEnv where
  dirExists : Bool
  files : List IdbFile
deriving Repr

/-- Folder-name constant from `extract-token.ts`. -/
def AKIFLOW_INDEXEDDB_FOLDER : String := "https_web.akiflow.com_0.indexeddb.leveldb"

/-- Is a token with this expiry expired at time `now`
(`expiresAt ? expiresAt < new Date() : false`)? -/
def idbIsExpired (now : Int) : Option Int → Bool
  | some e => decide (e < now)
  | none => false

/-- The per-match body of the inner loop of `extractFromIndexedDB`:
compute the expiry, and insert into the insertion-ordered map keyed by the
token string only when unexpired and not yet present. -/
def idbMatchStep (parseJson : List Nat → Except Unit (Option Int)) (now : Int)
    (browserId fullPath : String) (acc : List (String × ExtractedToken)) (jwt : String) :
    List (String × ExtractedToken) :=
  let expiresAt := parseJWTExpiration parseJson jwt
  if ¬ idbIsExpired now expiresAt ∧ acc.all (fun kv => kv.1 ≠ jwt) then
    acc ++ [(jwt, { browser := browserId, token := jwt, source := fullPath,
                    expiresAt := expiresAt })]
  else acc

/-- The per-file body of `extractFromIndexedDB`: skip names without a
`.log`/`.ldb` suffix, non-files, and unreadable files (the `catch`
`continue`); otherwise fold the match loop over the file's regex matches. -/
def idbFileStep (parseJson : List Nat → Except Unit (Option Int)) (now : Int)
    (browserId dirPath : String) (acc : List (String × ExtractedToken)) (f : IdbFile) :
    List (String × ExtractedToken) :=
  if ¬ (strEndsWith f.name ".log" ∨ strEndsWith f.name ".ldb") then acc
  else if ¬ f.isFile then acc
  else if ¬ f.readable then acc
  else
    (jwtMatches f.content).foldl
      (idbMatchStep parseJson now browserId (dirPath ++ "/" ++ f.name)) acc

/-- Sort key of the final sort: `expiresAt?.getTime() ?? 0`. -/
def tokenTime (t : ExtractedToken) : Int := t.expiresAt.getD 0

/-- Stable insertion for a descending sort: a later element goes behind
every existing element of equal or greater time. -/
def insertDesc (x : ExtractedToken) : List ExtractedToken → List ExtractedToken
  | [] => [x]
  | y :: rest =>
    if tokenTime y < tokenTime x then x :: y :: rest
    else y :: insertDesc x rest

/-- The comparator `(a, b) => bTime - aTime` sorts by descending time, and
JavaScript `Array.prototype.sort` is stable; a stable descending sort is
modelled as stable insertion sort (extensionally equal to any stable sort
under the same total preorder). -/
def idbSort (ts : List ExtractedToken) : List ExtractedToken :=
  ts.foldl (fun acc x => insertDesc x acc) []

/-- `extractFromIndexedDB(browserPath)`: missing `indexedDBPath` or missing
Akiflow folder give an empty result; otherwise fold the file loop into the
insertion-ordered unique-token map and sort its values by descending
expiry time. -/
def extractFromIndexedDB (parseJson : List Nat → Except Unit (Option Int)) (now : Int)
    (env : IdbEnv) (bp : BrowserPath) : List ExtractedToken :=
  match bp.indexedDBPath with
  | none => []
  | some idbPath =>
    if ¬ env.dirExists then []
    else
      let dirPath := idbPath ++ "/" ++ AKIFLOW_INDEXEDDB_FOLDER
      idbSort ((env.files.foldl (idbFileStep parseJson now bp.id dirPath) []).map Prod.snd)

/-! ## The orchestrator (`scanBrowsers`, `extractFromBrowser`) -/

/-- The state of one registered browser as observed by a scan: its
registry entry, its IndexedDB state, its cookie-store state for the
Chromium path, and the raw bytes of its cookie file for the Safari path.
The single `existsSync(browserPath.cookiePath)` fact is
`chrome.cookieFileExists`, shared by the orchestrator's guard and both
cookie extractors. -/
structure BrowserEnv where
  path : BrowserPath
  idb : IdbEnv
  chrome : ChromeEnv
  safariBytes : List Nat
deriving Repr

/-- All primitives the extraction pipeline consumes from the platform:
raw AES-CBC decryption, PBKDF2 key derivation, `JSON.parse` projected to
the `exp` claim, and the current time in milliseconds. -/
structure Platform where
  rawCBC : List Nat → List Nat → List Nat → List Nat
  deriveKeyF : String → List Nat
  parseJson : List Nat → Except Unit (Option Int)
  now : Int

/-- `scanBrowsers()` over the registry list: per browser, try IndexedDB
first and `continue` when it yields tokens; otherwise `continue` when the
cookie file is missing; otherwise dispatch on `encryptionMethod` and append
(a thrown exception aborts the whole scan). -/
def scanBrowsers (pf : Platform) : List BrowserEnv → Except Unit (List ExtractedToken)
  | [] => .ok []
  | env :: rest =>
    if 0 < (extractFromIndexedDB pf.parseJson pf.now env.idb env.path).length then
      match scanBrowsers pf rest with
      | .error e => .error e
      | .ok more => .ok (extractFromIndexedDB pf.parseJson pf.now env.idb env.path ++ more)
    else if ¬ env.chrome.cookieFileExists then scanBrowsers pf rest
    else
      match (if env.path.encryptionMethod = "pbkdf2" then
               (extractFromChrome pf.rawCBC pf.deriveKeyF env.chrome env.path).result
             else if env.path.encryptionMethod = "binary" then
               extractFromSafari env.safariBytes env.chrome.cookieFileExists env.path
             else .ok []) with
      | .error e => .error e
      | .ok toks =>
        match scanBrowsers pf rest with
        | .error e => .error e
        | .ok more => .ok (toks ++ more)

/-- `extractFromBrowser(browser)`: find the registry entry by id (empty
result when absent), then the same IndexedDB-first policy for that single
browser. -/
def extractFromBrowser (pf : Platform) (envs : List BrowserEnv) (browser : String) :
    Except Unit (List ExtractedToken) :=
  match envs.find? (fun e => e.path.id = browser) with
  | none => .ok []
  | some env =>
    if 0 < (extractFromIndexedDB pf.parseJson pf.now env.idb env.path).length then
      .ok (extractFromIndexedDB pf.parseJson pf.now env.idb env.path)
    else if ¬ env.chrome.cookieFileExists then .ok []
    else if env.path.encryptionMethod = "pbkdf2" then
      (extractFromChrome pf.rawCBC pf.deriveKeyF env.chrome env.path).result
    else if env.path.encryptionMethod = "binary" then
      extractFromSafari env.safariBytes env.chrome.cookieFileExists env.path
    else .ok []

/-! ## Concrete instantiations used by counterexamples and witnesses -/

/-- A degenerate raw CBC primitive (identity): a valid instantiation of the
abstract block-cipher parameter, under which encryption of a padded
plaintext is the padded plaintext itself. -/
def cbcId : List Nat → List Nat → List Nat → List Nat := fun _ _ ct => ct

/-- A concrete key-derivation instantiation. -/
def dkZero : String → List Nat := fun _ => List.replicate 16 0

/-- The registry entry for Chrome (paths abbreviated). -/
def bpChromeTest : BrowserPath :=
  { id := "chrome", name := "Google Chrome", cookiePath := "/cookies",
    indexedDBPath := some "/idb", encryptionMethod := "pbkdf2" }

/-- The registry entry for Safari (paths abbreviated). -/
def bpSafariTest : BrowserPath :=
  { id := "safari", name := "Safari", cookiePath := "/safcookies",
    indexedDBPath := none, encryptionMethod := "binary" }

/-- A matching cookie row carrying only a plaintext value. -/
def rowPlain : CookieRow :=
  { name := "remember_web_x", value := "tok", encrypted_value := [],
    host_key := "web.akiflow.com" }

/-- A matching cookie row whose encrypted value has the `v10` tag followed by
a 1-byte ciphertext: WebCrypto AES-CBC decryption throws on any length that
is not a positive multiple of 16, whatever the key. -/
def rowBad : CookieRow :=
  { name := "remember_web_bad", value := "", encrypted_value := [118, 49, 48, 7],
    host_key := ".akiflow.com" }

/-- A matching cookie row whose plaintext value is a single space. -/
def rowWs : CookieRow :=
  { name := "remember_web_w", value := " ", encrypted_value := [],
    host_key := ".akiflow.com" }

/-- Cookie store present, keychain returns absent, one plaintext-only row. -/
def envC1 : ChromeEnv :=
  { cookieFileExists := true, keychainPassword := none, dbRows := [rowPlain] }

/-- Cookie store present, password present, an undecryptable row followed by
a plaintext row. -/
def envC2 : ChromeEnv :=
  { cookieFileExists := true, keychainPassword := some "pw", dbRows := [rowBad, rowPlain] }

/-- Cookie store present, password present, one whitespace-valued row. -/
def envC6 : ChromeEnv :=
  { cookieFileExists := true, keychainPassword := some "pw", dbRows := [rowWs] }

/-- Boolean view of an `Except` being a thrown exception. -/
def exceptIsError {α : Type} : Except Unit α → Bool
  | .error _ => true
  | .ok _ => false

/-! ## Characterizing the IndexedDB scan

The following definitions restate the spec's description of the embedded
database scan as a pipeline — collect all matches in file order, drop the
expired ones, deduplicate keeping the first occurrence of each token
string, sort by descending expiry — and the lemmas show the imperative
fold of `extractFromIndexedDB` equals that pipeline. -/

/-- A directory entry the scanner actually reads: `.log`/`.ldb` suffix,
a regular file, and `readFileSync` succeeds. -/
def idbEligible (f : IdbFile) : Bool :=
  (strEndsWith f.name ".log" || strEndsWith f.name ".ldb") && f.isFile && f.readable

/-- All pattern matches over the eligible files in directory order, each
paired with the full path of the file it came from. -/
def idbAllMatches (dirPath : String) (files : List IdbFile) : List (String × String) :=
  (files.filter idbEligible).flatMap
    (fun f => (jwtMatches f.content).map (fun m => (m, dirPath ++ "/" ++ f.name)))

/-- Spec-side token construction for one match: `none` when its decoded
expiry claim is in the past, otherwise the `ExtractedToken` it produces. -/
def idbMkToken (parseJson : List Nat → Except Unit (Option Int)) (now : Int)
    (browserId : String) (mp : String × String) : Option ExtractedToken :=
  let e := parseJWTExpiration parseJson mp.1
  if idbIsExpired now e then none
  else some { browser := browserId, token := mp.1, source := mp.2, expiresAt := e }

/-- Spec-side first-occurrence deduplication by exact token string, given
the set of token strings already seen. -/
def dedupByToken : List ExtractedToken → List String → List ExtractedToken
  | [], _ => []
  | t :: rest, seen =>
    if seen.contains t.token then dedupByToken rest seen
    else t :: dedupByToken rest (t.token :: seen)

/-- Pair-shaped view of the inner match step. -/
def idbMatchStepP (parseJson : List Nat → Except Unit (Option Int)) (now : Int)
    (browserId : String) (acc : List (String × ExtractedToken)) (mp : String × String) :
    List (String × ExtractedToken) :=
  idbMatchStep parseJson now browserId mp.2 acc mp.1

/-! ## Fixtures for the IndexedDB concrete scenarios -/

/-- The literal pattern header as a string. -/
def hdrStr : String := "eyJ0eXAiOiJKV1QiLCJhbGciOiJSUzI1NiJ9"

/-- A concrete `JSON.parse`-projection: the payloads `aaaa`, `bbbb`, `cccc`
decode to `exp` claims 1000 s, 5 s and 2000 s respectively. -/
def pj3 : List Nat → Except Unit (Option Int) := fun bs =>
  if bs = b64Groups [26, 26, 26, 26] then .ok (some 1000)
  else if bs = b64Groups [27, 27, 27, 27] then .ok (some 5)
  else if bs = b64Groups [28, 28, 28, 28] then .ok (some 2000)
  else .error ()

/-- One log segment holding three token-shaped matches whose expiries are
{future (1000 s), past (5 s), future (2000 s)} relative to `now` = 500 s. -/
def idbEnv3 : IdbEnv :=
  { dirExists := true,
    files := [{ name := "a.log", isFile := true, readable := true,
                content := hdrStr ++ ".aaaa.S " ++ hdrStr ++ ".bbbb.S " ++
                  hdrStr ++ ".cccc.S" }] }

/-- The expected first result (latest expiry). -/
def tok2000 : ExtractedToken :=
  { browser := "chrome", token := hdrStr ++ ".cccc.S",
    source := "/idb/https_web.akiflow.com_0.indexeddb.leveldb/a.log",
    expiresAt := some 2000000 }

/-- The expected second result. -/
def tok1000 : ExtractedToken :=
  { browser := "chrome", token := hdrStr ++ ".aaaa.S",
    source := "/idb/https_web.akiflow.com_0.indexeddb.leveldb/a.log",
    expiresAt := some 1000000 }

/-- The token the Chromium whitespace counterexample emits. -/
def tokWs : ExtractedToken :=
  { browser := "chrome", token := " ", source := "/cookies" }

/-- A `JSON.parse` projection that always throws. -/
def pjErr : List Nat → Except Unit (Option Int) := fun _ => .error ()

/-- A log file with one match whose middle segment will fail to parse. -/
def fileC10 : IdbFile :=
  { name := "b.log", isFile := true, readable := true,
    content := "x " ++ hdrStr ++ ".AAAA.BBBB y" }

/-- Environment for the malformed-expiry scenario. -/
def idbEnvC10 : IdbEnv := { dirExists := true, files := [fileC10] }

/-- A concrete platform for the orchestrator scenario. -/
def pfTest : Platform :=
  { rawCBC := cbcId, deriveKeyF := dkZero, parseJson := pj3, now := 500000 }

/-- A registered browser whose IndexedDB scan succeeds and whose Chromium
cookie state is irrelevant to the outcome. -/
def benvTest : BrowserEnv :=
  { path := bpChromeTest, idb := idbEnv3, chrome := envC6, safariBytes := [] }

/-! ## Claim C7 -/

/-- The per-browser policy as the spec words it: run the embedded-database
scan first; if it yields at least one token, use exactly those; otherwise,
when the cookie store exists, dispatch to the extractor selected by the
descriptor's encryption method. -/
def specPerBrowserScan (pf : Platform) (env : BrowserEnv) :
    Except Unit (List ExtractedToken) :=
  if extractFromIndexedDB pf.parseJson pf.now env.idb env.path ≠ [] then
    .ok (extractFromIndexedDB pf.parseJson pf.now env.idb env.path)
  else if ¬ env.chrome.cookieFileExists then .ok []
  else if env.path.encryptionMethod = "pbkdf2" then
    (extractFromChrome pf.rawCBC pf.deriveKeyF env.chrome env.path).result
  else if env.path.encryptionMethod = "binary" then
    extractFromSafari env.safariBytes env.chrome.cookieFileExists env.path
  else .ok []

/-! ## Claim C9: a well-formed single-page, single-cookie container -/

/-- Little-endian 32-bit encoding of `k`. -/
def le32 (k : Nat) : List Nat :=
  [k % 256, k / 256 % 256, k / 65536 % 256, k / 16777216 % 256]

/-- Big-endian 32-bit encoding of `k`. -/
def be32 (k : Nat) : List Nat :=
  [k / 16777216 % 256, k / 65536 % 256, k / 256 % 256, k % 256]

/-- A single well-formed cookie record: little-endian size, three unknown
words, the four string pointers (relative to the record start, in the fixed
order domain, name, path, value), four further words (end-of-cookie,
expiration), then the four NUL-terminated strings at offset 48. -/
def mkSafariCookie (d n p v : List Nat) : List Nat :=
  le32 (52 + (d.length + n.length + p.length + v.length)) ++
  le32 0 ++ le32 0 ++ le32 0 ++
  le32 48 ++ le32 (49 + d.length) ++ le32 (50 + (d.length + n.length)) ++
  le32 (51 + (d.length + n.length + p.length)) ++
  le32 0 ++ le32 0 ++ le32 0 ++ le32 0 ++
  (d ++ 0 :: (n ++ 0 :: (p ++ 0 :: (v ++ [0]))))

/-- A well-formed single-page, single-cookie binary container: the ASCII
magic `cook`, big-endian page count 1 and page size, then the page — the
little-endian marker `0x00000100`, cookie count 1, the one cookie offset 12
(relative to the page start), and the record. -/
def mkSafariContainer (d n p v : List Nat) : List Nat :=
  [0x63, 0x6F, 0x6F, 0x6B] ++ be32 1 ++
  be32 (64 + (d.length + n.length + p.length + v.length)) ++
  (le32 0x100 ++ (le32 1 ++ (le32 12 ++ mkSafariCookie d n p v)))

/-! ## Claim C1 -/

/-- C1 counterexample: with the cookie store present, the secret store
absent, and exactly one matching row carrying a non-empty plaintext value,
`extractFromChrome` returns the empty list — not one token per
plaintext-bearing matching row, so the stated result-length equality
(0 = 1) fails. -/
theorem C1_counterexample :
    (extractFromChrome cbcId dkZero envC1 bpChromeTest).result = .ok [] ∧
    ((envC1.dbRows.filter rowMatchesQuery).filter (fun r => r.value ≠ "")).length = 1 := by
  exact ⟨rfl, rfl⟩

/-- C1 amended: when the OS secret store returns absent (`null`, or an empty
trimmed password, both falsy), `extractFromChrome` returns the empty list
immediately — plaintext-only rows are NOT attempted — and no snapshot copy
is left behind. -/
theorem C1_keychain_absent_returns_empty
    (rawCBC : List Nat → List Nat → List Nat → List Nat) (dk : String → List Nat)
    (env : ChromeEnv) (bp : BrowserPath)
    (h : env.keychainPassword = none ∨ env.keychainPassword = some "") :
    (extractFromChrome rawCBC dk env bp).result = .ok [] ∧
    (extractFromChrome rawCBC dk env bp).snapshotLeft = false := by
  unfold extractFromChrome
  rcases h with h | h <;> rw [h] <;> by_cases hc : env.cookieFileExists <;> simp [hc]

/-- Witness for the C1 amended theorem at a concrete environment. -/
theorem C1_keychain_absent_witness :
    (envC1.keychainPassword = none ∨ envC1.keychainPassword = some "") ∧
    ((extractFromChrome cbcId dkZero envC1 bpChromeTest).result = .ok [] ∧
     (extractFromChrome cbcId dkZero envC1 bpChromeTest).snapshotLeft = false) :=
  ⟨Or.inl rfl, C1_keychain_absent_returns_empty cbcId dkZero envC1 bpChromeTest (Or.inl rfl)⟩

/-! ## Claim C4 -/

/-- C4 counterexample: a matching row whose encrypted value cannot be
decrypted makes `extractFromChrome` exit via the propagated exception, and
the temporary snapshot copy is still on disk after the call — the snapshot
is not removed on every exit path. -/
theorem C4_counterexample :
    (extractFromChrome cbcId dkZero envC2 bpChromeTest).snapshotLeft = true ∧
    (extractFromChrome cbcId dkZero envC2 bpChromeTest).result = .error () := by
  exact ⟨rfl, rfl⟩

/-- C4 amended: the snapshot copy is removed exactly on the normal-return
exit; whenever the extraction exits via a thrown exception (a row that fails
to decrypt), the `unlinkSync` cleanup is skipped and the snapshot file
remains. -/
theorem C4_snapshot_left_iff_throw
    (rawCBC : List Nat → List Nat → List Nat → List Nat) (dk : String → List Nat)
    (env : ChromeEnv) (bp : BrowserPath) :
    (extractFromChrome rawCBC dk env bp).snapshotLeft =
      exceptIsError (extractFromChrome rawCBC dk env bp).result := by
  unfold extractFromChrome
  by_cases hc : env.cookieFileExists
  · cases hpw : env.keychainPassword with
    | none => simp [hc, exceptIsError]
    | some pw =>
      by_cases he : pw = ""
      · simp [hc, he, exceptIsError]
      · cases hloop : chromeRowsLoop rawCBC (dk pw) bp (env.dbRows.filter rowMatchesQuery) with
        | error e => simp [hc, he, hloop, exceptIsError]
        | ok toks => simp [hc, he, hloop, exceptIsError]
  · simp [hc, exceptIsError]

/-! ## Claim C5 -/

/-- C5: the claim is right about the intended algorithm but the code is
wrong.  `crypto.subtle.decrypt` for AES-CBC already validates and removes
the PKCS#7 padding; the code then strips `decrypted[len-1]` further bytes.
Under any raw-CBC instantiation (here the identity pair, for which
encrypting the padded plaintext is the padded plaintext), the tagged
encryption of plaintext `A` (0x41) decrypts to `""`, not `"A"`: the
unpadded plaintext `[65]` loses `65` more bytes.  The untagged pass-through
half of the claim does hold (third conjunct, the repository's own test
vector). -/
theorem C5_double_unpad_bug :
    decryptChromeValue cbcId ([118, 49, 48] ++ pkcs7pad [65]) (List.replicate 16 0) =
      .ok (some "") ∧
    utf8DecodeLossy [65] = "A" ∧
    ¬ decryptChromeValue cbcId ([118, 49, 48] ++ pkcs7pad [65]) (List.replicate 16 0) =
        .ok (some (utf8DecodeLossy [65])) ∧
    decryptChromeValue cbcId [112, 108, 97, 105, 110, 116, 101, 120, 116] (List.replicate 16 0) =
      .ok (some "plaintext") := by
  refine ⟨rfl, rfl, ?_, rfl⟩
  intro h
  rw [show decryptChromeValue cbcId ([118, 49, 48] ++ pkcs7pad [65]) (List.replicate 16 0) =
        .ok (some "") from rfl] at h
  rw [show utf8DecodeLossy [65] = "A" from rfl] at h
  exact absurd (Option.some.inj (Except.ok.inj h)) (by decide)

/-! ## Claim C2 -/

/-- A row that throws aborts the whole row loop: if every earlier filtered
row processes without throwing and some row throws, the loop result is the
propagated exception. -/
theorem chromeRowsLoop_error_of
    (rawCBC : List Nat → List Nat → List Nat → List Nat) (key : List Nat)
    (bp : BrowserPath) (pre post : List CookieRow) (bad : CookieRow)
    (hpre : ∀ r ∈ pre, processChromeRow rawCBC key bp r ≠ .error ())
    (hbad : processChromeRow rawCBC key bp bad = .error ()) :
    chromeRowsLoop rawCBC key bp (pre ++ bad :: post) = .error () := by
  induction pre with
  | nil => simpa [chromeRowsLoop] using hbad ▸ rfl
  | cons r rest ih =>
    have hr : processChromeRow rawCBC key bp r ≠ .error () := hpre r (by simp)
    have ih2 := ih (fun x hx => hpre x (by simp [hx]))
    show chromeRowsLoop rawCBC key bp (r :: (rest ++ bad :: post)) = .error ()
    unfold chromeRowsLoop
    cases hpr : processChromeRow rawCBC key bp r with
    | error e => cases e; exact absurd hpr hr
    | ok o =>
      cases o with
      | none => simpa using ih2
      | some t => simp [ih2]

/-- A recognized `v10` tag whose remaining ciphertext is empty or not a
multiple of 16 bytes makes `decryptChromeValue` throw (WebCrypto length
check), regardless of the cipher and key. -/
theorem decryptChromeValue_error_of_badLength
    (rawCBC : List Nat → List Nat → List Nat → List Nat) (key ct : List Nat)
    (h : ct = [] ∨ ct.length % 16 ≠ 0) :
    decryptChromeValue rawCBC ([118, 49, 48] ++ ct) key = .error () := by
  have hc : ct.length = 0 ∨ ct.length % 16 ≠ 0 := by
    rcases h with h | h
    · left; simp [h]
    · right; exact h
  have hsub : subtleDecryptCBC
      (rawCBC key [32, 32, 32, 32, 32, 32, 32, 32, 32, 32, 32, 32, 32, 32, 32, 32]) ct =
      .error () := by
    unfold subtleDecryptCBC
    rw [if_pos hc]
  unfold decryptChromeValue
  have hlen : ¬ ([118, 49, 48] ++ ct).length < 3 := by simp
  rw [if_neg hlen]
  have htag : ([118, 49, 48] ++ ct).getD 0 0 = 118 ∧ ([118, 49, 48] ++ ct).getD 1 0 = 49 ∧
      ([118, 49, 48] ++ ct).getD 2 0 = 48 := by
    refine ⟨rfl, rfl, rfl⟩
  rw [htag.1, htag.2.1, htag.2.2]
  have hdrop : ([118, 49, 48] ++ ct).drop 3 = ct := rfl
  simp [hdrop, hsub]

/-- C2 counterexample: with the password available and two matching rows —
the first carrying an undecryptable encrypted value (`v10` tag, 1-byte
ciphertext), the second resolving fine on its own (second conjunct) —
`extractFromChrome` returns the propagated exception and none of the other
rows' tokens: a single undecryptable row is fatal to the whole scan. -/
theorem C2_counterexample :
    (extractFromChrome cbcId dkZero envC2 bpChromeTest).result = .error () ∧
    processChromeRow cbcId (dkZero "pw") bpChromeTest rowPlain =
      .ok (some { browser := "chrome", token := "tok", source := "/cookies" }) := by
  exact ⟨rfl, rfl⟩

/-- C2 amended: a matching row whose encrypted value fails WebCrypto
AES-CBC decryption does NOT merely lose that row: the exception propagates
out of `extractFromChrome` (aborting the scan and leaving the snapshot),
whenever every earlier filtered row itself processes without throwing.
Rows rejected without an exception (e.g. an encrypted value shorter than
3 bytes, which yields `null`) are the ones skipped individually.  The
second conjunct gives a concrete throwing family: a recognized tag whose
ciphertext length is not a positive multiple of 16. -/
theorem C2_undecryptable_row_aborts :
    (∀ (rawCBC : List Nat → List Nat → List Nat → List Nat) (dk : String → List Nat)
       (env : ChromeEnv) (bp : BrowserPath) (pw : String) (pre post : List CookieRow)
       (bad : CookieRow),
       env.cookieFileExists = true → env.keychainPassword = some pw → pw ≠ "" →
       env.dbRows.filter rowMatchesQuery = pre ++ bad :: post →
       (∀ r ∈ pre, processChromeRow rawCBC (dk pw) bp r ≠ .error ()) →
       processChromeRow rawCBC (dk pw) bp bad = .error () →
       (extractFromChrome rawCBC dk env bp).result = .error () ∧
       (extractFromChrome rawCBC dk env bp).snapshotLeft = true) ∧
    (∀ (rawCBC : List Nat → List Nat → List Nat → List Nat) (key ct : List Nat),
       ct = [] ∨ ct.length % 16 ≠ 0 →
       decryptChromeValue rawCBC ([118, 49, 48] ++ ct) key = .error ()) := by
  constructor
  · intro rawCBC dk env bp pw pre post bad hex hpw hne hfilter hpre hbad
    have hloop := chromeRowsLoop_error_of rawCBC (dk pw) bp pre post bad hpre hbad
    unfold extractFromChrome
    rw [hpw]
    simp [hex, hne, hfilter, hloop]
  · exact decryptChromeValue_error_of_badLength

/-- Witness for the C2 amended theorem at the concrete environment of the
counterexample shape (bad row first, fine row second) and at ciphertext
`[7]`. -/
theorem C2_undecryptable_row_aborts_witness :
    ((extractFromChrome cbcId dkZero envC2 bpChromeTest).result = .error () ∧
     (extractFromChrome cbcId dkZero envC2 bpChromeTest).snapshotLeft = true) ∧
    decryptChromeValue cbcId ([118, 49, 48] ++ [7]) (dkZero "pw") = .error () :=
  ⟨C2_undecryptable_row_aborts.1 cbcId dkZero envC2 bpChromeTest "pw" [] [rowPlain] rowBad
      rfl rfl (by decide) (by decide)
      (by intro r hr; simp at hr) (by decide),
   C2_undecryptable_row_aborts.2 cbcId (dkZero "pw") [7] (by right; decide)⟩

/-! ## Claim C3 -/

/-- C3 counterexample: on the truncated input consisting of exactly the
4-byte magic, the Safari parse is NOT total — reading the page count at
offset 4 overruns the buffer and `DataView.getUint32` throws, so the parse
throws rather than skipping. -/
theorem C3_counterexample :
    extractFromSafari [0x63, 0x6F, 0x6F, 0x6B] true bpSafariTest = .error () := rfl

/-- C3 amended: the Safari parse is only partially defensive.  A wrong
magic returns empty without throwing (first conjunct); inside a record the
48-byte fixed header region and the declared record size are validated
against the page size, skipping just that record (second and third
conjuncts).  But the page count, page sizes, page windows, cookie-offset
tables and string pointers are dereferenced without validation against the
file, so a truncated or malformed container makes the parse throw; and a
string read is not bounded by its record — it scans to the first NUL (or
the buffer end), as the fourth conjunct shows on a window of declared size
1 whose string read returns 3 bytes from beyond the window. -/
theorem C3_partial_bounds_checks :
    (∀ (bs : List Nat) (ex : Bool) (bp : BrowserPath),
       [bs.getD 0 0, bs.getD 1 0, bs.getD 2 0, bs.getD 3 0] ≠ [0x63, 0x6F, 0x6F, 0x6B] →
       extractFromSafari bs ex bp = .ok []) ∧
    (∀ (w : ByteWindow) (co ps : Nat), ps < co + 48 → parseSafariCookie w co ps = .ok none) ∧
    (∀ (w : ByteWindow) (co ps s : Nat), co + 48 ≤ ps → w.getU32LE co = .ok s →
       ps < co + s → parseSafariCookie w co ps = .ok none) ∧
    safariReadString ⟨[65, 66, 67, 0], 0, 1⟩ 0 0 = .ok "ABC" := by
  refine ⟨?_, ?_, ?_, rfl⟩
  · intro bs ex bp hm
    unfold extractFromSafari
    by_cases hex : ex = true
    · rw [if_neg (by simp [hex]), if_pos hm]
    · rw [if_pos (by simp at hex; simp [hex])]
  · intro w co ps hlt
    unfold parseSafariCookie
    rw [if_pos hlt]
  · intro w co ps s hge hread hlt
    unfold parseSafariCookie
    rw [if_neg (by omega)]
    simp only [hread]
    rw [if_pos hlt]

/-- Witness for the C3 amended theorem: a concrete wrong-magic file, a
concrete out-of-page record offset, and a concrete oversized record size. -/
theorem C3_partial_bounds_checks_witness :
    extractFromSafari [9, 9, 9, 9, 0, 0, 0, 1] true bpSafariTest = .ok [] ∧
    parseSafariCookie ⟨List.replicate 60 0, 0, 60⟩ 20 60 = .ok none ∧
    parseSafariCookie ⟨[100, 0, 0, 0] ++ List.replicate 76 0, 0, 80⟩ 0 80 = .ok none :=
  ⟨C3_partial_bounds_checks.1 [9, 9, 9, 9, 0, 0, 0, 1] true bpSafariTest (by decide),
   C3_partial_bounds_checks.2.1 ⟨List.replicate 60 0, 0, 60⟩ 20 60 (by decide),
   C3_partial_bounds_checks.2.2.1 ⟨[100, 0, 0, 0] ++ List.replicate 76 0, 0, 80⟩ 0 80 100
     (by decide) (by decide) (by decide)⟩

/-! ## Claim C6 (counterexample part; the amended theorem follows the
IndexedDB development below) -/

/-- C6 counterexample: the Chromium extractor emits whatever truthy string
a matching row resolves to — here the single-space plaintext value — so a
whitespace-only (non-empty) token does appear in the returned results,
violating the stated invariant. -/
theorem C6_counterexample :
    (extractFromChrome cbcId dkZero envC6 bpChromeTest).result =
      .ok [{ browser := "chrome", token := " ", source := "/cookies" }] ∧
    (" " : String).data.all Char.isWhitespace = true ∧ (" " : String) ≠ "" := by
  refine ⟨rfl, by decide, by decide⟩

theorem idbFileStep_skip (pj : List Nat → Except Unit (Option Int)) (now : Int)
    (bid dir : String) (acc : List (String × ExtractedToken)) (f : IdbFile)
    (h : ¬ idbEligible f = true) :
    idbFileStep pj now bid dir acc f = acc := by
  unfold idbFileStep
  by_cases h1 : strEndsWith f.name ".log" ∨ strEndsWith f.name ".ldb"
  · rw [if_neg (not_not_intro h1)]
    by_cases h2 : f.isFile = true
    · rw [if_neg (by simpa using h2)]
      by_cases h3 : f.readable = true
      · exfalso
        apply h
        unfold idbEligible
        rcases h1 with h1 | h1 <;> simp [h1, h2, h3]
      · rw [if_pos (by simpa using h3)]
    · rw [if_pos (by simpa using h2)]
  · rw [if_pos (by simpa using h1)]

theorem idbFileStep_run (pj : List Nat → Except Unit (Option Int)) (now : Int)
    (bid dir : String) (acc : List (String × ExtractedToken)) (f : IdbFile)
    (h : idbEligible f = true) :
    idbFileStep pj now bid dir acc f =
      (jwtMatches f.content).foldl (idbMatchStep pj now bid (dir ++ "/" ++ f.name)) acc := by
  unfold idbFileStep
  unfold idbEligible at h
  simp only [Bool.and_eq_true, Bool.or_eq_true] at h
  rw [if_neg (by simp [h.1.1]), if_neg (by simp [h.1.2]), if_neg (by simp [h.2])]

/-- Folding the per-file steps over all files equals folding the per-match
step over the flat match list. -/
theorem idb_fold_files_eq (pj : List Nat → Except Unit (Option Int)) (now : Int)
    (bid dir : String) (files : List IdbFile) (acc : List (String × ExtractedToken)) :
    files.foldl (idbFileStep pj now bid dir) acc =
      (idbAllMatches dir files).foldl (idbMatchStepP pj now bid) acc := by
  induction files generalizing acc with
  | nil => rfl
  | cons f rest ih =>
    rw [List.foldl_cons]
    by_cases he : idbEligible f = true
    · rw [idbFileStep_run pj now bid dir acc f he, ih]
      unfold idbAllMatches
      rw [List.filter_cons_of_pos he]
      show _ = ((jwtMatches f.content).map (fun m => (m, dir ++ "/" ++ f.name)) ++
        idbAllMatches dir rest).foldl (idbMatchStepP pj now bid) acc
      rw [List.foldl_append, List.foldl_map]
      rfl
    · rw [idbFileStep_skip pj now bid dir acc f he, ih]
      unfold idbAllMatches
      rw [List.filter_cons_of_neg he]

theorem dedupByToken_cons (t : ExtractedToken) (rest : List ExtractedToken)
    (seen : List String) :
    dedupByToken (t :: rest) seen =
      if seen.contains t.token then dedupByToken rest seen
      else t :: dedupByToken rest (t.token :: seen) := rfl

theorem dedupByToken_congr (l : List ExtractedToken) (s1 s2 : List String)
    (h : ∀ x, s1.contains x = s2.contains x) :
    dedupByToken l s1 = dedupByToken l s2 := by
  induction l generalizing s1 s2 with
  | nil => rfl
  | cons t rest ih =>
    rw [dedupByToken_cons, dedupByToken_cons, h t.token]
    by_cases hc : s2.contains t.token = true
    · rw [if_pos hc, if_pos hc]
      exact ih s1 s2 h
    · rw [if_neg hc, if_neg hc]
      rw [ih (t.token :: s1) (t.token :: s2) (fun x => by
        simp only [List.contains_cons, h x])]

/-- The inner fold over matches, projected to its values, equals the
filter–deduplicate pipeline seeded with the keys already in the
accumulator. -/
theorem idb_fold_matches_map_snd (pj : List Nat → Except Unit (Option Int)) (now : Int)
    (bid : String) (mps : List (String × String)) (acc : List (String × ExtractedToken)) :
    (mps.foldl (idbMatchStepP pj now bid) acc).map Prod.snd =
      acc.map Prod.snd ++
        dedupByToken (mps.filterMap (idbMkToken pj now bid)) (acc.map Prod.fst) := by
  induction mps generalizing acc with
  | nil => simp [dedupByToken]
  | cons mp rest ih =>
    rw [List.foldl_cons]
    by_cases hexp : idbIsExpired now (parseJWTExpiration pj mp.1) = true
    · have hstep : idbMatchStepP pj now bid acc mp = acc := by
        unfold idbMatchStepP idbMatchStep
        rw [if_neg (by simp [hexp])]
      have hmk : idbMkToken pj now bid mp = none := by
        unfold idbMkToken
        rw [if_pos hexp]
      rw [hstep, ih, List.filterMap_cons, hmk]
    · have hmk : idbMkToken pj now bid mp =
          some (ExtractedToken.mk bid mp.1 mp.2 (parseJWTExpiration pj mp.1)) := by
        unfold idbMkToken
        rw [if_neg hexp]
      have htok : (ExtractedToken.mk bid mp.1 mp.2 (parseJWTExpiration pj mp.1)).token
          = mp.1 := rfl
      by_cases hmem : (acc.map Prod.fst).contains mp.1 = true
      · have hstep : idbMatchStepP pj now bid acc mp = acc := by
          unfold idbMatchStepP idbMatchStep
          rw [if_neg ?_]
          intro hand
          rcases hand with ⟨-, hall⟩
          simp only [List.all_eq_true, decide_eq_true_eq] at hall
          simp only [List.contains_iff_exists_mem_beq, beq_iff_eq] at hmem
          rcases hmem with ⟨x, hx, hxeq⟩
          rcases List.mem_map.mp hx with ⟨kv, hkv, hkveq⟩
          exact hall kv hkv (hkveq.trans hxeq.symm)
        rw [hstep, ih, List.filterMap_cons, hmk, dedupByToken_cons, htok, if_pos hmem]
      · have hall : acc.all (fun kv => kv.1 ≠ mp.1) = true := by
          simp only [List.all_eq_true, decide_eq_true_eq]
          intro kv hkv hkveq
          exact hmem (by
            simp only [List.contains_iff_exists_mem_beq, beq_iff_eq]
            exact ⟨kv.1, List.mem_map.mpr ⟨kv, hkv, rfl⟩, hkveq.symm⟩)
        have hstep : idbMatchStepP pj now bid acc mp =
            acc ++ [(mp.1, ExtractedToken.mk bid mp.1 mp.2 (parseJWTExpiration pj mp.1))] := by
          unfold idbMatchStepP idbMatchStep
          rw [if_pos ⟨by simp [hexp], hall⟩]
        rw [hstep, ih, List.filterMap_cons, hmk, dedupByToken_cons, htok, if_neg hmem]
        have hcg : dedupByToken (rest.filterMap (idbMkToken pj now bid))
            (acc.map Prod.fst ++ [mp.1]) =
            dedupByToken (rest.filterMap (idbMkToken pj now bid))
              (mp.1 :: acc.map Prod.fst) :=
          dedupByToken_congr _ _ _ (fun x => by
            have e1 : (acc.map Prod.fst ++ [mp.1]).contains x = true ↔
                x ∈ acc.map Prod.fst ++ [mp.1] := List.elem_iff
            have e2 : (mp.1 :: acc.map Prod.fst).contains x = true ↔
                x ∈ mp.1 :: acc.map Prod.fst := List.elem_iff
            have hm : x ∈ acc.map Prod.fst ++ [mp.1] ↔ x ∈ mp.1 :: acc.map Prod.fst := by
              simp only [List.mem_append, List.mem_cons, List.mem_singleton]
              tauto
            by_cases hx : (acc.map Prod.fst ++ [mp.1]).contains x = true
            · rw [hx]
              exact (e2.mpr (hm.mp (e1.mp hx))).symm
            · have hx2 : ¬ (mp.1 :: acc.map Prod.fst).contains x = true :=
                fun hcc => hx (e1.mpr (hm.mpr (e2.mp hcc)))
              rw [Bool.not_eq_true] at hx hx2
              rw [hx, hx2])
        simp [hcg]

/-- `extractFromIndexedDB` equals the spec pipeline: collect matches in
file order, drop past-expiry matches, keep the first occurrence of each
token string, sort by descending expiry time. -/
theorem extractFromIndexedDB_eq (pj : List Nat → Except Unit (Option Int)) (now : Int)
    (env : IdbEnv) (bp : BrowserPath) (idbPath : String)
    (hp : bp.indexedDBPath = some idbPath) (hd : env.dirExists = true) :
    extractFromIndexedDB pj now env bp =
      idbSort (dedupByToken
        ((idbAllMatches (idbPath ++ "/" ++ AKIFLOW_INDEXEDDB_FOLDER) env.files).filterMap
          (idbMkToken pj now bp.id)) []) := by
  have h0 : extractFromIndexedDB pj now env bp =
      idbSort ((env.files.foldl
        (idbFileStep pj now bp.id (idbPath ++ "/" ++ AKIFLOW_INDEXEDDB_FOLDER)) []).map
          Prod.snd) := by
    unfold extractFromIndexedDB
    rw [hp]
    show (if ¬ env.dirExists then [] else _) = _
    rw [if_neg (by simp [hd])]
  rw [h0, idb_fold_files_eq, idb_fold_matches_map_snd]
  simp

theorem mem_insertDesc (x z : ExtractedToken) (l : List ExtractedToken) :
    z ∈ insertDesc x l ↔ z = x ∨ z ∈ l := by
  induction l with
  | nil => simp [insertDesc]
  | cons y rest ih =>
    unfold insertDesc
    by_cases hc : tokenTime y < tokenTime x
    · rw [if_pos hc]
      simp
    · rw [if_neg hc]
      simp only [List.mem_cons, ih]
      tauto

theorem insertDesc_pairwise (x : ExtractedToken) (l : List ExtractedToken)
    (h : l.Pairwise (fun a b => tokenTime b ≤ tokenTime a)) :
    (insertDesc x l).Pairwise (fun a b => tokenTime b ≤ tokenTime a) := by
  induction l with
  | nil => simp [insertDesc]
  | cons y rest ih =>
    rcases List.pairwise_cons.mp h with ⟨hy, hrest⟩
    unfold insertDesc
    by_cases hc : tokenTime y < tokenTime x
    · rw [if_pos hc]
      refine List.pairwise_cons.mpr ⟨?_, h⟩
      intro z hz
      rcases List.mem_cons.mp hz with rfl | hz
      · exact le_of_lt hc
      · exact le_trans (hy z hz) (le_of_lt hc)
    · rw [if_neg hc]
      refine List.pairwise_cons.mpr ⟨?_, ih hrest⟩
      intro z hz
      rcases (mem_insertDesc x z rest).mp hz with rfl | hz
      · exact le_of_not_lt hc
      · exact hy z hz

theorem idbSort_pairwise (l : List ExtractedToken) :
    (idbSort l).Pairwise (fun a b => tokenTime b ≤ tokenTime a) := by
  suffices h : ∀ acc, acc.Pairwise (fun a b => tokenTime b ≤ tokenTime a) →
      (l.foldl (fun acc x => insertDesc x acc) acc).Pairwise
        (fun a b => tokenTime b ≤ tokenTime a) from
    h [] List.Pairwise.nil
  induction l with
  | nil => intro acc hacc; exact hacc
  | cons x rest ih =>
    intro acc hacc
    exact ih (insertDesc x acc) (insertDesc_pairwise x acc hacc)

theorem mem_idbSort (t : ExtractedToken) (l : List ExtractedToken) :
    t ∈ idbSort l ↔ t ∈ l := by
  suffices h : ∀ acc, (t ∈ l.foldl (fun acc x => insertDesc x acc) acc ↔ t ∈ acc ∨ t ∈ l) by
    have := h []
    simpa [idbSort] using this
  induction l with
  | nil => intro acc; simp
  | cons x rest ih =>
    intro acc
    rw [List.foldl_cons, ih (insertDesc x acc)]
    rw [mem_insertDesc]
    simp only [List.mem_cons]
    tauto

theorem dedupByToken_subset (l : List ExtractedToken) (seen : List String)
    (t : ExtractedToken) (h : t ∈ dedupByToken l seen) : t ∈ l := by
  induction l generalizing seen with
  | nil => simpa [dedupByToken] using h
  | cons a rest ih =>
    rw [dedupByToken_cons] at h
    by_cases hc : seen.contains a.token = true
    · rw [if_pos hc] at h
      exact List.mem_cons_of_mem a (ih seen h)
    · rw [if_neg hc] at h
      rcases List.mem_cons.mp h with rfl | h
      · exact List.mem_cons_self _ _
      · exact List.mem_cons_of_mem a (ih (a.token :: seen) h)

theorem dedupByToken_exists (l : List ExtractedToken) (seen : List String) (m : String)
    (hl : ∃ t ∈ l, t.token = m) (hs : ¬ seen.contains m = true) :
    ∃ u ∈ dedupByToken l seen, u.token = m := by
  induction l generalizing seen with
  | nil =>
    rcases hl with ⟨t, ht, -⟩
    simp at ht
  | cons a rest ih =>
    rw [dedupByToken_cons]
    rcases hl with ⟨t, ht, htm⟩
    by_cases ham : a.token = m
    · by_cases hc : seen.contains a.token = true
      · exact absurd (ham ▸ hc) hs
      · rw [if_neg hc]
        exact ⟨a, List.mem_cons_self a _, ham⟩
    · have htr : t ∈ rest := by
        rcases List.mem_cons.mp ht with rfl | htr
        · exact absurd htm ham
        · exact htr
      by_cases hc : seen.contains a.token = true
      · rw [if_pos hc]
        exact ih seen ⟨t, htr, htm⟩ hs
      · rw [if_neg hc]
        have hs2 : ¬ (a.token :: seen).contains m = true := by
          rw [List.contains_cons]
          simp only [Bool.or_eq_true, beq_iff_eq]
          rintro (h | h)
          · exact ham h.symm
          · exact hs h
        obtain ⟨u, hu, hum⟩ := ih (a.token :: seen) ⟨t, htr, htm⟩ hs2
        exact ⟨u, List.mem_cons_of_mem a hu, hum⟩

theorem idbMkToken_some_elim (pj : List Nat → Except Unit (Option Int)) (now : Int)
    (bid : String) (mp : String × String) (t : ExtractedToken)
    (h : idbMkToken pj now bid mp = some t) :
    t.browser = bid ∧ t.token = mp.1 ∧ t.source = mp.2 ∧
    t.expiresAt = parseJWTExpiration pj mp.1 ∧
    idbIsExpired now t.expiresAt = false := by
  unfold idbMkToken at h
  by_cases hexp : idbIsExpired now (parseJWTExpiration pj mp.1) = true
  · rw [if_pos hexp] at h
    exact absurd h (by simp)
  · rw [if_neg hexp] at h
    obtain rfl := Option.some.inj h
    exact ⟨rfl, rfl, rfl, rfl, by simpa using hexp⟩

/-- Every successful anchored match of the pattern starts with the literal
header. -/
theorem tryMatchJWT_some (cs mc rem : List Char) (h : tryMatchJWT cs = some (mc, rem)) :
    ∃ tail, mc = JWT_HEADER ++ tail := by
  unfold tryMatchJWT at h
  by_cases hp : JWT_HEADER.isPrefixOf cs = true
  · rw [if_pos hp] at h
    split at h
    · split at h
      · exact absurd h (by simp)
      · split at h
        · split at h
          · exact absurd h (by simp)
          · simp only [Option.some.injEq, Prod.mk.injEq] at h
            exact ⟨_, h.1.symm⟩
        · exact absurd h (by simp)
    · exact absurd h (by simp)
  · rw [if_neg hp] at h
    exact absurd h (by simp)

/-- Every match the global scan emits starts with the literal header. -/
theorem scanJWTsF_header (fuel : Nat) :
    ∀ (cs : List Char) (m : String), m ∈ scanJWTsF fuel cs →
      ∃ tail, m.data = JWT_HEADER ++ tail := by
  induction fuel with
  | zero =>
    intro cs m h
    simp [scanJWTsF] at h
  | succ f ih =>
    intro cs m h
    cases cs with
    | nil => simp [scanJWTsF] at h
    | cons c rest =>
      cases htm : tryMatchJWT (c :: rest) with
      | none =>
        have he : scanJWTsF (f + 1) (c :: rest) = scanJWTsF f rest := by
          show (match tryMatchJWT (c :: rest) with
                | some (mm, rem) => String.mk mm :: scanJWTsF f rem
                | none => scanJWTsF f rest) = scanJWTsF f rest
          rw [htm]
        rw [he] at h
        exact ih rest m h
      | some pr =>
        obtain ⟨mc, rem⟩ := pr
        have he : scanJWTsF (f + 1) (c :: rest) = String.mk mc :: scanJWTsF f rem := by
          show (match tryMatchJWT (c :: rest) with
                | some (mm, rem) => String.mk mm :: scanJWTsF f rem
                | none => scanJWTsF f rest) = String.mk mc :: scanJWTsF f rem
          rw [htm]
        rw [he] at h
        rcases List.mem_cons.mp h with rfl | hrest
        · obtain ⟨tail, htail⟩ := tryMatchJWT_some (c :: rest) mc rem htm
          exact ⟨tail, htail⟩
        · exact ih rem m hrest

/-- `extractFromIndexedDB` is empty when the descriptor has no IndexedDB
path or the Akiflow folder is missing. -/
theorem extractFromIndexedDB_nil_of (pj : List Nat → Except Unit (Option Int)) (now : Int)
    (env : IdbEnv) (bp : BrowserPath)
    (h : bp.indexedDBPath = none ∨ env.dirExists = false) :
    extractFromIndexedDB pj now env bp = [] := by
  rcases h with h | h
  · unfold extractFromIndexedDB
    rw [h]
  · cases hp : bp.indexedDBPath with
    | none =>
      unfold extractFromIndexedDB
      rw [hp]
    | some p =>
      unfold extractFromIndexedDB
      rw [hp]
      show (if ¬ env.dirExists then [] else _) = []
      rw [if_pos (by simp [h])]

/-- Every token the IndexedDB scan returns is a pattern match (so starts
with the literal header), is unexpired at scan time, and carries exactly
the expiry its own token string decodes to. -/
theorem extractFromIndexedDB_mem (pj : List Nat → Except Unit (Option Int)) (now : Int)
    (env : IdbEnv) (bp : BrowserPath) (t : ExtractedToken)
    (h : t ∈ extractFromIndexedDB pj now env bp) :
    (∃ tail, t.token.data = JWT_HEADER ++ tail) ∧
    idbIsExpired now t.expiresAt = false ∧
    t.expiresAt = parseJWTExpiration pj t.token ∧
    t.browser = bp.id := by
  cases hp : bp.indexedDBPath with
  | none =>
    rw [extractFromIndexedDB_nil_of pj now env bp (Or.inl hp)] at h
    simp at h
  | some idbPath =>
    by_cases hd : env.dirExists = true
    · rw [extractFromIndexedDB_eq pj now env bp idbPath hp hd] at h
      have h1 := (mem_idbSort t _).mp h
      have h2 := dedupByToken_subset _ _ _ h1
      obtain ⟨mp, hmp, hmk⟩ := List.mem_filterMap.mp h2
      obtain ⟨hb, htok, -, hexp, hne⟩ := idbMkToken_some_elim pj now bp.id mp t hmk
      obtain ⟨f, -, hmm⟩ := List.mem_flatMap.mp hmp
      obtain ⟨m, hm, hpair⟩ := List.mem_map.mp hmm
      have hm1 : mp.1 = m := by rw [← hpair]
      obtain ⟨tail, htail⟩ := scanJWTsF_header _ _ _ hm
      refine ⟨⟨tail, ?_⟩, hne, ?_, hb⟩
      · rw [htok, hm1]
        exact htail
      · rw [hexp, htok]
    · rw [extractFromIndexedDB_nil_of pj now env bp
        (Or.inr (by simpa using hd))] at h
      simp at h

theorem chromeRowsLoop_cons (rawCBC : List Nat → List Nat → List Nat → List Nat)
    (key : List Nat) (bp : BrowserPath) (r : CookieRow) (rest : List CookieRow) :
    chromeRowsLoop rawCBC key bp (r :: rest) =
      match processChromeRow rawCBC key bp r with
      | .error e => .error e
      | .ok none => chromeRowsLoop rawCBC key bp rest
      | .ok (some t) =>
        match chromeRowsLoop rawCBC key bp rest with
        | .error e => .error e
        | .ok ts => .ok (t :: ts) := rfl

/-- A row the Chromium loop emits always carries a non-empty token string,
no expiry, the browser id and the cookie path. -/
theorem processChromeRow_ok_some (rawCBC : List Nat → List Nat → List Nat → List Nat)
    (key : List Nat) (bp : BrowserPath) (row : CookieRow) (t : ExtractedToken)
    (h : processChromeRow rawCBC key bp row = .ok (some t)) :
    t.token ≠ "" ∧ t.expiresAt = none ∧ t.browser = bp.id ∧ t.source = bp.cookiePath := by
  unfold processChromeRow at h
  split at h
  · exact absurd h (by simp)
  · split at h
    · exact absurd h (by simp)
    · split at h
      · exact absurd h (by simp)
      · rename_i hs
        obtain rfl := Option.some.inj (Except.ok.inj h)
        exact ⟨hs, rfl, rfl, rfl⟩

theorem chromeRowsLoop_ok_mem (rawCBC : List Nat → List Nat → List Nat → List Nat)
    (key : List Nat) (bp : BrowserPath) (rows : List CookieRow)
    (toks : List ExtractedToken) (h : chromeRowsLoop rawCBC key bp rows = .ok toks) :
    ∀ t ∈ toks, t.token ≠ "" ∧ t.expiresAt = none := by
  induction rows generalizing toks with
  | nil =>
    obtain rfl := Except.ok.inj h
    intro t ht
    simp at ht
  | cons r rest ih =>
    rw [chromeRowsLoop_cons] at h
    cases hr : processChromeRow rawCBC key bp r with
    | error e =>
      rw [hr] at h
      exact absurd h (by simp)
    | ok o =>
      rw [hr] at h
      cases o with
      | none => exact ih toks h
      | some t0 =>
        cases hrec : chromeRowsLoop rawCBC key bp rest with
        | error e =>
          rw [hrec] at h
          exact absurd h (by simp)
        | ok ts =>
          rw [hrec] at h
          obtain rfl := Except.ok.inj h
          intro t ht
          rcases List.mem_cons.mp ht with rfl | ht
          · obtain ⟨h1, h2, -, -⟩ := processChromeRow_ok_some rawCBC key bp r t hr
            exact ⟨h1, h2⟩
          · exact ih ts hrec t ht

/-- Every token a successful Chromium extraction returns is non-empty and
carries no expiry. -/
theorem extractFromChrome_ok_mem (rawCBC : List Nat → List Nat → List Nat → List Nat)
    (dk : String → List Nat) (env : ChromeEnv) (bp : BrowserPath)
    (toks : List ExtractedToken)
    (h : (extractFromChrome rawCBC dk env bp).result = .ok toks) :
    ∀ t ∈ toks, t.token ≠ "" ∧ t.expiresAt = none := by
  unfold extractFromChrome at h
  split at h
  · obtain rfl := Except.ok.inj h
    intro t ht
    simp at ht
  · split at h
    · obtain rfl := Except.ok.inj h
      intro t ht
      simp at ht
    · split at h
      · obtain rfl := Except.ok.inj h
        intro t ht
        simp at ht
      · split at h
        · exact absurd h (by simp)
        · rename_i hloop
          obtain rfl := Except.ok.inj h
          exact chromeRowsLoop_ok_mem rawCBC _ bp _ _ hloop

/-! ## Claim C6 (amended theorem) -/

/-- C6 amended: the invariant holds in full on the embedded-database path —
every returned token is a pattern match, hence non-empty and not
whitespace-only, and a token whose `expiresAt` is before the scan time
never appears.  On the Chromium path tokens are never empty and never
carry an expiry (so the expiry clause is vacuous), but they may be
whitespace-only; the Safari path guarantees neither. -/
theorem C6_token_invariants :
    (∀ (rawCBC : List Nat → List Nat → List Nat → List Nat) (dk : String → List Nat)
       (env : ChromeEnv) (bp : BrowserPath) (toks : List ExtractedToken),
       (extractFromChrome rawCBC dk env bp).result = .ok toks →
       ∀ t ∈ toks, t.token ≠ "" ∧ t.expiresAt = none) ∧
    (∀ (pj : List Nat → Except Unit (Option Int)) (now : Int) (env : IdbEnv)
       (bp : BrowserPath) (t : ExtractedToken), t ∈ extractFromIndexedDB pj now env bp →
       t.token ≠ "" ∧ ¬ t.token.data.all Char.isWhitespace = true ∧
       (∀ e, t.expiresAt = some e → ¬ e < now)) := by
  constructor
  · exact extractFromChrome_ok_mem
  · intro pj now env bp t ht
    obtain ⟨⟨tail, htail⟩, hne, -, -⟩ := extractFromIndexedDB_mem pj now env bp t ht
    have hcons : t.token.data = 'e' :: ("yJ0eXAiOiJKV1QiLCJhbGciOiJSUzI1NiJ9".data ++ tail) := by
      rw [htail]
      rfl
    refine ⟨?_, ?_, ?_⟩
    · intro hemp
      rw [show ("" : String) = String.mk [] from rfl] at hemp
      have : t.token.data = [] := by rw [hemp]
      rw [hcons] at this
      simp at this
    · intro hall
      rw [hcons] at hall
      have := (List.all_eq_true.mp hall) 'e' (by simp)
      simp [Char.isWhitespace] at this
    · intro e he
      rw [he] at hne
      unfold idbIsExpired at hne
      simpa using hne

set_option maxRecDepth 100000 in
/-- Witness for the C6 amended theorem: the whitespace token of the
counterexample environment satisfies the (weaker) Chromium clause, and a
concrete embedded-database token satisfies the full invariant. -/
theorem C6_token_invariants_witness :
    (tokWs.token ≠ "" ∧ tokWs.expiresAt = none) ∧
    (tok2000.token ≠ "" ∧ ¬ tok2000.token.data.all Char.isWhitespace = true ∧
     (∀ e, tok2000.expiresAt = some e → ¬ e < (500000 : Int))) :=
  ⟨C6_token_invariants.1 cbcId dkZero envC6 bpChromeTest [tokWs] (by decide)
      tokWs (List.mem_singleton.mpr rfl),
   C6_token_invariants.2 pj3 500000 idbEnv3 bpChromeTest tok2000 (by
      rw [show extractFromIndexedDB pj3 500000 idbEnv3 bpChromeTest = [tok2000, tok1000]
        from by decide]
      exact List.mem_cons_self _ _)⟩

/-! ## Claim C8 -/

set_option maxRecDepth 100000 in
/-- C8: the embedded-database scan equals the spec pipeline — every match
whose decoded expiry is in the past is discarded, matches with future or
absent expiry are kept, duplicates (by exact token string) are dropped
keeping the first occurrence, and the survivors are returned sorted by
descending expiry time (conjuncts 1–3); with a positive scan time the
tokens lacking an expiry form a suffix, i.e. sort last (conjunct 4); and
the concrete {future, future, past} scenario returns exactly the two
future tokens in descending-expiry order (conjunct 5). -/
theorem C8_idb_scan_pipeline :
    (∀ (pj : List Nat → Except Unit (Option Int)) (now : Int) (env : IdbEnv)
       (bp : BrowserPath) (idbPath : String),
       bp.indexedDBPath = some idbPath → env.dirExists = true →
       extractFromIndexedDB pj now env bp =
         idbSort (dedupByToken ((idbAllMatches (idbPath ++ "/" ++ AKIFLOW_INDEXEDDB_FOLDER)
           env.files).filterMap (idbMkToken pj now bp.id)) [])) ∧
    (∀ (pj : List Nat → Except Unit (Option Int)) (now : Int) (env : IdbEnv)
       (bp : BrowserPath) (t : ExtractedToken), t ∈ extractFromIndexedDB pj now env bp →
       ∀ e, t.expiresAt = some e → ¬ e < now) ∧
    (∀ (pj : List Nat → Except Unit (Option Int)) (now : Int) (env : IdbEnv)
       (bp : BrowserPath), (extractFromIndexedDB pj now env bp).Pairwise
         (fun a b => tokenTime b ≤ tokenTime a)) ∧
    (∀ (pj : List Nat → Except Unit (Option Int)) (now : Int), 0 < now →
       ∀ (env : IdbEnv) (bp : BrowserPath), (extractFromIndexedDB pj now env bp).Pairwise
         (fun a b => a.expiresAt = none → b.expiresAt = none)) ∧
    extractFromIndexedDB pj3 500000 idbEnv3 bpChromeTest = [tok2000, tok1000] := by
  have hpairtime : ∀ (pj : List Nat → Except Unit (Option Int)) (now : Int) (env : IdbEnv)
      (bp : BrowserPath), (extractFromIndexedDB pj now env bp).Pairwise
        (fun a b => tokenTime b ≤ tokenTime a) := by
    intro pj now env bp
    cases hp : bp.indexedDBPath with
    | none =>
      rw [extractFromIndexedDB_nil_of pj now env bp (Or.inl hp)]
      exact List.Pairwise.nil
    | some idbPath =>
      by_cases hd : env.dirExists = true
      · rw [extractFromIndexedDB_eq pj now env bp idbPath hp hd]
        exact idbSort_pairwise _
      · rw [extractFromIndexedDB_nil_of pj now env bp (Or.inr (by simpa using hd))]
        exact List.Pairwise.nil
  have hkept : ∀ (pj : List Nat → Except Unit (Option Int)) (now : Int) (env : IdbEnv)
      (bp : BrowserPath) (t : ExtractedToken), t ∈ extractFromIndexedDB pj now env bp →
      ∀ e, t.expiresAt = some e → ¬ e < now := by
    intro pj now env bp t ht e he
    obtain ⟨-, hne, -, -⟩ := extractFromIndexedDB_mem pj now env bp t ht
    rw [he] at hne
    unfold idbIsExpired at hne
    simpa using hne
  refine ⟨extractFromIndexedDB_eq, hkept, hpairtime, ?_, by decide⟩
  intro pj now hnow env bp
  refine (hpairtime pj now env bp).imp_of_mem ?_
  intro a b ha hb hab hanone
  cases hbe : b.expiresAt with
  | none => rfl
  | some e =>
    exfalso
    have h1 : ¬ e < now := hkept pj now env bp b hb e hbe
    have h2 : tokenTime b = e := by
      unfold tokenTime
      rw [hbe]
      rfl
    have h3 : tokenTime a = 0 := by
      unfold tokenTime
      rw [hanone]
      rfl
    rw [h2, h3] at hab
    omega

/-- Witness for C8 at the concrete scenario: the pipeline equation and the
absent-expiry-last ordering instantiated at the three-match environment. -/
theorem C8_idb_scan_pipeline_witness :
    (extractFromIndexedDB pj3 500000 idbEnv3 bpChromeTest =
      idbSort (dedupByToken ((idbAllMatches ("/idb" ++ "/" ++ AKIFLOW_INDEXEDDB_FOLDER)
        idbEnv3.files).filterMap (idbMkToken pj3 500000 bpChromeTest.id)) [])) ∧
    (extractFromIndexedDB pj3 500000 idbEnv3 bpChromeTest).Pairwise
      (fun a b => a.expiresAt = none → b.expiresAt = none) :=
  ⟨C8_idb_scan_pipeline.1 pj3 500000 idbEnv3 bpChromeTest "/idb" rfl rfl,
   C8_idb_scan_pipeline.2.2.2.1 pj3 500000 (by decide) idbEnv3 bpChromeTest⟩

/-! ## Claim C10 -/

/-- C10: expiry extraction is total (in the source every throwing primitive
inside `parseJWTExpiration` — `atob`, `JSON.parse` — is wrapped in the
`try`/`catch` that returns `undefined`, and the embedding is a total
function), and a match whose middle segment fails base64 decoding or JSON
parsing, or carries no usable `exp` claim, is treated as unexpired: it is
still represented in the scan result by a token with the same string and
no `expiresAt`. -/
theorem C10_malformed_expiry_kept :
    ∀ (pj : List Nat → Except Unit (Option Int)) (now : Int) (env : IdbEnv)
      (bp : BrowserPath) (idbPath : String),
      bp.indexedDBPath = some idbPath → env.dirExists = true →
      ∀ f ∈ env.files, idbEligible f = true →
      ∀ m ∈ jwtMatches f.content, parseJWTExpiration pj m = none →
      ∃ t ∈ extractFromIndexedDB pj now env bp, t.token = m ∧ t.expiresAt = none := by
  intro pj now env bp idbPath hp hd f hf helig m hm hparse
  rw [extractFromIndexedDB_eq pj now env bp idbPath hp hd]
  have hmp : (m, (idbPath ++ "/" ++ AKIFLOW_INDEXEDDB_FOLDER) ++ "/" ++ f.name) ∈
      idbAllMatches (idbPath ++ "/" ++ AKIFLOW_INDEXEDDB_FOLDER) env.files :=
    List.mem_flatMap.mpr ⟨f, List.mem_filter.mpr ⟨hf, helig⟩,
      List.mem_map.mpr ⟨m, hm, rfl⟩⟩
  have hmk : idbMkToken pj now bp.id
      (m, (idbPath ++ "/" ++ AKIFLOW_INDEXEDDB_FOLDER) ++ "/" ++ f.name) =
      some (ExtractedToken.mk bp.id m
        ((idbPath ++ "/" ++ AKIFLOW_INDEXEDDB_FOLDER) ++ "/" ++ f.name) none) := by
    unfold idbMkToken
    rw [hparse]
    rfl
  have hex : ∃ t0 ∈ (idbAllMatches (idbPath ++ "/" ++ AKIFLOW_INDEXEDDB_FOLDER)
      env.files).filterMap (idbMkToken pj now bp.id), t0.token = m :=
    ⟨_, List.mem_filterMap.mpr ⟨_, hmp, hmk⟩, rfl⟩
  obtain ⟨u, hu, hum⟩ := dedupByToken_exists _ [] m hex (by simp)
  refine ⟨u, (mem_idbSort u _).mpr hu, hum, ?_⟩
  have hu2 := dedupByToken_subset _ _ _ hu
  obtain ⟨mp2, -, hmk2⟩ := List.mem_filterMap.mp hu2
  obtain ⟨-, htok2, -, hexp2, -⟩ := idbMkToken_some_elim pj now bp.id mp2 u hmk2
  have hm2 : mp2.1 = m := htok2.symm.trans hum
  rw [hexp2, hm2, hparse]

set_option maxRecDepth 100000 in
/-- Witness for C10: a parse projection that always throws still leaves the
match in the result, with no expiry. -/
theorem C10_malformed_expiry_kept_witness :
    ∃ t ∈ extractFromIndexedDB pjErr 500000 idbEnvC10 bpChromeTest,
      t.token = hdrStr ++ ".AAAA.BBBB" ∧ t.expiresAt = none :=
  C10_malformed_expiry_kept pjErr 500000 idbEnvC10 bpChromeTest "/idb" rfl rfl
    fileC10 (List.mem_singleton.mpr rfl) (by decide)
    (hdrStr ++ ".AAAA.BBBB") (by decide) (by decide)

/-- One step of `scanBrowsers` is exactly the per-browser policy followed
by concatenation. -/
theorem scanBrowsers_cons (pf : Platform) (env : BrowserEnv) (rest : List BrowserEnv) :
    scanBrowsers pf (env :: rest) =
      match specPerBrowserScan pf env with
      | .error e => .error e
      | .ok toks =>
        match scanBrowsers pf rest with
        | .error e => .error e
        | .ok more => .ok (toks ++ more) := by
  unfold specPerBrowserScan
  by_cases hidb : extractFromIndexedDB pf.parseJson pf.now env.idb env.path = []
  · rw [if_neg (by simp [hidb])]
    show (if 0 < (extractFromIndexedDB pf.parseJson pf.now env.idb env.path).length
          then _ else _) = _
    rw [if_neg (by simp [hidb])]
    by_cases hex : env.chrome.cookieFileExists
    · rw [if_neg (not_not_intro hex), if_neg (not_not_intro hex)]
    · rw [if_pos (by simpa using hex), if_pos (by simpa using hex)]
      cases hrest : scanBrowsers pf rest with
      | error e => rfl
      | ok more => rfl
  · rw [if_pos (by simpa using hidb)]
    show (if 0 < (extractFromIndexedDB pf.parseJson pf.now env.idb env.path).length
          then _ else _) = _
    rw [if_pos (List.length_pos.mpr hidb)]

/-- C7: the orchestrator follows the IndexedDB-first policy.
Conjunct 1: `scanBrowsers` equals, browser by browser in registry order,
the concatenation of the per-browser policy results (so results are
concatenated with no cross-browser deduplication, and an exception
propagates).  Conjunct 2: when the embedded-database scan yields at least
one token, the per-browser result is exactly those tokens, and it does not
depend on the cookie-store state at all — the cookie path is never run
(replacing the Chromium environment and Safari bytes by anything, even
state on which the cookie extractors would throw, leaves the result
unchanged).  Conjunct 3: `extractFromBrowser` looks up the browser by id
(empty when absent) and applies the same per-browser policy. -/
theorem C7_orchestrator_policy :
    (∀ (pf : Platform) (envs : List BrowserEnv),
       scanBrowsers pf envs =
         (envs.mapM (specPerBrowserScan pf)).map List.flatten) ∧
    (∀ (pf : Platform) (env : BrowserEnv),
       extractFromIndexedDB pf.parseJson pf.now env.idb env.path ≠ [] →
       specPerBrowserScan pf env =
         .ok (extractFromIndexedDB pf.parseJson pf.now env.idb env.path) ∧
       ∀ (chrome2 : ChromeEnv) (safari2 : List Nat),
         specPerBrowserScan pf { env with chrome := chrome2, safariBytes := safari2 } =
           specPerBrowserScan pf env) ∧
    (∀ (pf : Platform) (envs : List BrowserEnv) (browser : String),
       extractFromBrowser pf envs browser =
         match envs.find? (fun e => e.path.id = browser) with
         | none => .ok []
         | some env => specPerBrowserScan pf env) := by
  refine ⟨?_, ?_, ?_⟩
  · intro pf envs
    induction envs with
    | nil => rfl
    | cons env rest ih =>
      rw [scanBrowsers_cons, ih, List.mapM_cons]
      cases henv : specPerBrowserScan pf env with
      | error e => rfl
      | ok toks =>
        cases hrest : (rest.mapM (specPerBrowserScan pf)) with
        | error e => rfl
        | ok ls => rfl
  · intro pf env hidb
    constructor
    · unfold specPerBrowserScan
      rw [if_pos hidb]
    · intro chrome2 safari2
      unfold specPerBrowserScan
      rw [if_pos hidb, if_pos hidb]
  · intro pf envs browser
    unfold extractFromBrowser
    cases hf : envs.find? (fun e => e.path.id = browser) with
    | none => rfl
    | some env =>
      show (if 0 < (extractFromIndexedDB pf.parseJson pf.now env.idb env.path).length
            then _ else _) = specPerBrowserScan pf env
      unfold specPerBrowserScan
      by_cases hidb : extractFromIndexedDB pf.parseJson pf.now env.idb env.path = []
      · rw [if_neg (show ¬ 0 < (extractFromIndexedDB pf.parseJson pf.now
            env.idb env.path).length by simp [hidb]), if_neg (not_not_intro hidb)]
      · rw [if_pos (List.length_pos.mpr hidb), if_pos (by simpa using hidb)]

set_option maxRecDepth 100000 in
/-- Witness for C7 at a concrete platform and registry: a browser whose
embedded-database scan succeeds while its Chromium cookie state would
throw — the policy still returns exactly the IndexedDB tokens. -/
theorem C7_orchestrator_policy_witness :
    scanBrowsers pfTest [benvTest] =
      (([benvTest].mapM (specPerBrowserScan pfTest)).map List.flatten) ∧
    specPerBrowserScan pfTest benvTest =
      .ok (extractFromIndexedDB pfTest.parseJson pfTest.now benvTest.idb benvTest.path) ∧
    specPerBrowserScan pfTest { benvTest with chrome := envC2, safariBytes := [1, 2] } =
      specPerBrowserScan pfTest benvTest ∧
    extractFromBrowser pfTest [benvTest] "chrome" =
      match [benvTest].find? (fun e => e.path.id = "chrome") with
      | none => .ok []
      | some env => specPerBrowserScan pfTest env :=
  ⟨C7_orchestrator_policy.1 pfTest [benvTest],
   (C7_orchestrator_policy.2.1 pfTest benvTest (by decide)).1,
   (C7_orchestrator_policy.2.1 pfTest benvTest (by decide)).2 envC2 [1, 2],
   C7_orchestrator_policy.2.2 pfTest [benvTest] "chrome"⟩

theorem readU32LE_of_drop (bs : List Nat) (off k : Nat) (rest : List Nat)
    (hdrop : bs.drop off = le32 k ++ rest) (hk : k < 2 ^ 32) :
    readU32LE bs off = .ok k := by
  have hlen : bs.length - off = 4 + rest.length := by
    have h := congrArg List.length hdrop
    simp [List.length_drop, le32] at h
    omega
  have hoff : off + 4 ≤ bs.length := by omega
  have hDi : ∀ i : Nat, bs.getD (off + i) 0 = (bs.drop off).getD i 0 := by
    intro i
    rw [List.getD_eq_getElem?_getD, List.getD_eq_getElem?_getD, List.getElem?_drop]
  have e0 : bs.getD off 0 = k % 256 := by
    have h := hDi 0
    rw [Nat.add_zero] at h
    rw [h, hdrop]
    rfl
  have e1 : bs.getD (off + 1) 0 = k / 256 % 256 := by
    rw [hDi 1, hdrop]
    rfl
  have e2 : bs.getD (off + 2) 0 = k / 65536 % 256 := by
    rw [hDi 2, hdrop]
    rfl
  have e3 : bs.getD (off + 3) 0 = k / 16777216 % 256 := by
    rw [hDi 3, hdrop]
    rfl
  unfold readU32LE
  rw [if_pos hoff, e0, e1, e2, e3]
  exact congrArg Except.ok (by omega)

theorem readU32BE_of_drop (bs : List Nat) (off k : Nat) (rest : List Nat)
    (hdrop : bs.drop off = be32 k ++ rest) (hk : k < 2 ^ 32) :
    readU32BE bs off = .ok k := by
  have hlen : bs.length - off = 4 + rest.length := by
    have h := congrArg List.length hdrop
    simp [List.length_drop, be32] at h
    omega
  have hoff : off + 4 ≤ bs.length := by omega
  have hDi : ∀ i : Nat, bs.getD (off + i) 0 = (bs.drop off).getD i 0 := by
    intro i
    rw [List.getD_eq_getElem?_getD, List.getD_eq_getElem?_getD, List.getElem?_drop]
  have e0 : bs.getD off 0 = k / 16777216 % 256 := by
    have h := hDi 0
    rw [Nat.add_zero] at h
    rw [h, hdrop]
    rfl
  have e1 : bs.getD (off + 1) 0 = k / 65536 % 256 := by
    rw [hDi 1, hdrop]
    rfl
  have e2 : bs.getD (off + 2) 0 = k / 256 % 256 := by
    rw [hDi 2, hdrop]
    rfl
  have e3 : bs.getD (off + 3) 0 = k % 256 := by
    rw [hDi 3, hdrop]
    rfl
  unfold readU32BE
  rw [if_pos hoff, e0, e1, e2, e3]
  exact congrArg Except.ok (by omega)

theorem getU32LE_of_drop (bs : List Nat) (start size off k : Nat) (rest : List Nat)
    (hdrop : bs.drop (start + off) = le32 k ++ rest) (hk : k < 2 ^ 32)
    (hb : off + 4 ≤ size) :
    ByteWindow.getU32LE ⟨bs, start, size⟩ off = .ok k := by
  unfold ByteWindow.getU32LE
  rw [if_pos hb]
  exact readU32LE_of_drop bs (start + off) k rest hdrop hk

theorem takeWhile_nz_append (d rest : List Nat) (hd : ∀ b ∈ d, b ≠ 0) :
    (d ++ 0 :: rest).takeWhile (· ≠ 0) = d := by
  induction d with
  | nil => simp [List.takeWhile]
  | cons a t ih =>
    have ha : a ≠ 0 := hd a (List.mem_cons_self a t)
    have ht : ∀ b ∈ t, b ≠ 0 := fun b hb => hd b (List.mem_cons_of_mem a hb)
    simp only [List.cons_append, List.takeWhile_cons, decide_eq_true_eq]
    rw [if_pos ha, ih ht]

theorem safariReadString_of (bs : List Nat) (start size co so : Nat)
    (str rest : List Nat) (hdrop : bs.drop (start + co + so) = str ++ 0 :: rest)
    (hnz : ∀ b ∈ str, b ≠ 0) :
    safariReadString ⟨bs, start, size⟩ co so = .ok (utf8DecodeLossy str) := by
  have habs : start + co + so ≤ bs.length := by
    have h := congrArg List.length hdrop
    simp [List.length_drop] at h
    omega
  unfold safariReadString
  rw [if_pos habs]
  rw [show (⟨bs, start, size⟩ : ByteWindow).bytes.drop (start + co + so) =
      str ++ 0 :: rest from hdrop]
  rw [takeWhile_nz_append str rest hnz]

theorem drop_skip_str (bs : List Nat) (a : Nat) (s t : List Nat)
    (h : bs.drop a = s ++ 0 :: t) : bs.drop (a + (s.length + 1)) = t := by
  rw [← List.drop_drop, h]
  rw [show s ++ 0 :: t = (s ++ [0]) ++ t by simp]
  exact List.drop_left' (by simp)

/-- C9: for every well-formed single-page, single-cookie container built
from NUL-free domain, name, path and value byte strings (of total length
fitting the 32-bit fields) whose decoded domain contains the target domain
substring and whose decoded name starts with the target prefix, the Safari
parse returns exactly one token whose `token` field is the decoded value. -/
theorem C9_single_cookie_container (d n p v : List Nat) (bp : BrowserPath)
    (hd : ∀ b ∈ d, b ≠ 0) (hn : ∀ b ∈ n, b ≠ 0) (hp : ∀ b ∈ p, b ≠ 0)
    (hv : ∀ b ∈ v, b ≠ 0)
    (hsz : d.length + n.length + p.length + v.length + 64 < 2 ^ 32)
    (hdom : strIncludes (utf8DecodeLossy d) AKIFLOW_DOMAIN = true)
    (hname : strStartsWith (utf8DecodeLossy n) COOKIE_NAME_PATTERN = true) :
    extractFromSafari (mkSafariContainer d n p v) true bp =
      .ok [{ browser := "safari", token := utf8DecodeLossy v,
             source := bp.cookiePath }] := by
  -- abbreviations (as plain haves about lengths)
  have hlen : (mkSafariContainer d n p v).length =
      76 + (d.length + n.length + p.length + v.length) := by
    simp [mkSafariContainer, mkSafariCookie, be32, le32]
    omega
  -- leaf 32-bit reads
  have hnum : readU32BE (mkSafariContainer d n p v) 4 = .ok 1 :=
    readU32BE_of_drop _ 4 1 _ rfl (by norm_num)
  have hps : readU32BE (mkSafariContainer d n p v) 8 =
      .ok (64 + (d.length + n.length + p.length + v.length)) :=
    readU32BE_of_drop _ 8 _ _ rfl (by omega)
  have hpages : readPageSizes (mkSafariContainer d n p v) 1 8 =
      .ok [64 + (d.length + n.length + p.length + v.length)] := by
    unfold readPageSizes
    rw [hps]
    rfl
  have hmkdv : mkDataView (mkSafariContainer d n p v) 12
      (64 + (d.length + n.length + p.length + v.length)) =
      .ok ⟨mkSafariContainer d n p v, 12,
           64 + (d.length + n.length + p.length + v.length)⟩ := by
    unfold mkDataView
    rw [if_pos (by rw [hlen]; omega)]
  have hhdr : ByteWindow.getU32LE ⟨mkSafariContainer d n p v, 12,
      64 + (d.length + n.length + p.length + v.length)⟩ 0 = .ok 0x100 :=
    getU32LE_of_drop _ 12 _ 0 0x100 _ rfl (by norm_num) (by omega)
  have hncook : ByteWindow.getU32LE ⟨mkSafariContainer d n p v, 12,
      64 + (d.length + n.length + p.length + v.length)⟩ 4 = .ok 1 :=
    getU32LE_of_drop _ 12 _ 4 1 _ rfl (by norm_num) (by omega)
  have hoff0 : ByteWindow.getU32LE ⟨mkSafariContainer d n p v, 12,
      64 + (d.length + n.length + p.length + v.length)⟩ 8 = .ok 12 :=
    getU32LE_of_drop _ 12 _ 8 12 _ rfl (by norm_num) (by omega)
  have hoffs : readCookieOffsets ⟨mkSafariContainer d n p v, 12,
      64 + (d.length + n.length + p.length + v.length)⟩ 1 8 = .ok [12] := by
    unfold readCookieOffsets
    rw [hoff0]
    rfl
  have hcsz : ByteWindow.getU32LE ⟨mkSafariContainer d n p v, 12,
      64 + (d.length + n.length + p.length + v.length)⟩ 12 =
      .ok (52 + (d.length + n.length + p.length + v.length)) :=
    getU32LE_of_drop _ 12 _ 12 _ _ rfl (by omega) (by omega)
  have hrd : ByteWindow.getU32LE ⟨mkSafariContainer d n p v, 12,
      64 + (d.length + n.length + p.length + v.length)⟩ (12 + 16) = .ok 48 :=
    getU32LE_of_drop _ 12 _ (12 + 16) 48 _ rfl (by norm_num) (by omega)
  have hrn : ByteWindow.getU32LE ⟨mkSafariContainer d n p v, 12,
      64 + (d.length + n.length + p.length + v.length)⟩ (12 + 20) =
      .ok (49 + d.length) :=
    getU32LE_of_drop _ 12 _ (12 + 20) _ _ rfl (by omega) (by omega)
  have hrp : ByteWindow.getU32LE ⟨mkSafariContainer d n p v, 12,
      64 + (d.length + n.length + p.length + v.length)⟩ (12 + 24) =
      .ok (50 + (d.length + n.length)) :=
    getU32LE_of_drop _ 12 _ (12 + 24) _ _ rfl (by omega) (by omega)
  have hrv : ByteWindow.getU32LE ⟨mkSafariContainer d n p v, 12,
      64 + (d.length + n.length + p.length + v.length)⟩ (12 + 28) =
      .ok (51 + (d.length + n.length + p.length)) :=
    getU32LE_of_drop _ 12 _ (12 + 28) _ _ rfl (by omega) (by omega)
  -- the four strings
  have h72 : (mkSafariContainer d n p v).drop 72 =
      d ++ 0 :: (n ++ 0 :: (p ++ 0 :: (v ++ [0]))) := rfl
  have hsd : safariReadString ⟨mkSafariContainer d n p v, 12,
      64 + (d.length + n.length + p.length + v.length)⟩ 12 48 =
      .ok (utf8DecodeLossy d) :=
    safariReadString_of _ 12 _ 12 48 d _ h72 hd
  have h73 : (mkSafariContainer d n p v).drop (12 + 12 + (49 + d.length)) =
      n ++ 0 :: (p ++ 0 :: (v ++ [0])) := by
    have h2 := drop_skip_str _ 72 d _ h72
    rw [show 12 + 12 + (49 + d.length) = 72 + (d.length + 1) from by omega]
    exact h2
  have hsn : safariReadString ⟨mkSafariContainer d n p v, 12,
      64 + (d.length + n.length + p.length + v.length)⟩ 12 (49 + d.length) =
      .ok (utf8DecodeLossy n) :=
    safariReadString_of _ 12 _ 12 (49 + d.length) n _ h73 hn
  have h74 : (mkSafariContainer d n p v).drop
      (12 + 12 + (50 + (d.length + n.length))) = p ++ 0 :: (v ++ [0]) := by
    have h2 := drop_skip_str _ (12 + 12 + (49 + d.length)) n _ h73
    rw [show 12 + 12 + (50 + (d.length + n.length)) =
        12 + 12 + (49 + d.length) + (n.length + 1) from by omega]
    exact h2
  have hsp : safariReadString ⟨mkSafariContainer d n p v, 12,
      64 + (d.length + n.length + p.length + v.length)⟩ 12
      (50 + (d.length + n.length)) = .ok (utf8DecodeLossy p) :=
    safariReadString_of _ 12 _ 12 (50 + (d.length + n.length)) p _ h74 hp
  have h75 : (mkSafariContainer d n p v).drop
      (12 + 12 + (51 + (d.length + n.length + p.length))) = v ++ [0] := by
    have h2 := drop_skip_str _ (12 + 12 + (50 + (d.length + n.length))) p _ h74
    rw [show 12 + 12 + (51 + (d.length + n.length + p.length)) =
        12 + 12 + (50 + (d.length + n.length)) + (p.length + 1) from by omega]
    exact h2
  have hsv : safariReadString ⟨mkSafariContainer d n p v, 12,
      64 + (d.length + n.length + p.length + v.length)⟩ 12
      (51 + (d.length + n.length + p.length)) = .ok (utf8DecodeLossy v) :=
    safariReadString_of _ 12 _ 12 (51 + (d.length + n.length + p.length)) v _
      (by rw [h75]) hv
  -- the parsed cookie
  have hparse : parseSafariCookie ⟨mkSafariContainer d n p v, 12,
      64 + (d.length + n.length + p.length + v.length)⟩ 12
      (64 + (d.length + n.length + p.length + v.length)) =
      .ok (some ⟨utf8DecodeLossy n, utf8DecodeLossy v, utf8DecodeLossy d,
                 utf8DecodeLossy p⟩) := by
    unfold parseSafariCookie
    rw [if_neg (by omega)]
    simp only [hcsz]
    rw [if_neg (by omega)]
    simp only [hrd, hrn, hrp, hrv, hsd, hsn, hsp, hsv]
  -- one page
  have hpage : safariProcessPage (mkSafariContainer d n p v) bp.cookiePath 12
      (64 + (d.length + n.length + p.length + v.length)) =
      .ok [{ browser := "safari", token := utf8DecodeLossy v,
             source := bp.cookiePath }] := by
    unfold safariProcessPage
    simp only [hmkdv, hhdr]
    rw [if_neg (by norm_num)]
    simp only [hncook, hoffs]
    unfold safariCookiesLoop
    simp only [hparse]
    rw [if_pos (by simp [hdom, hname])]
    rfl
  -- the page loop
  have hloop : safariPagesLoop (mkSafariContainer d n p v) bp.cookiePath
      [64 + (d.length + n.length + p.length + v.length)] 12 =
      .ok [{ browser := "safari", token := utf8DecodeLossy v,
             source := bp.cookiePath }] := by
    unfold safariPagesLoop
    rw [if_neg (by omega)]
    simp only [hpage]
    rfl
  -- assemble
  unfold extractFromSafari
  rw [if_neg (by simp)]
  rw [if_neg (not_not_intro (show
    [(mkSafariContainer d n p v).getD 0 0, (mkSafariContainer d n p v).getD 1 0,
     (mkSafariContainer d n p v).getD 2 0, (mkSafariContainer d n p v).getD 3 0] =
    [0x63, 0x6F, 0x6F, 0x6B] from rfl))]
  simp only [hnum, hpages]
  rw [show (8 + 4 * 1 : Nat) = 12 from rfl]
  exact hloop

/-- Witness for C9: a concrete container with domain `.akiflow.com`, name
`remember_web_a`, path `/` and value `VALZ` parses to exactly one token
whose token field is `VALZ`. -/
theorem C9_single_cookie_container_witness :
    extractFromSafari
      (mkSafariContainer
        [46, 97, 107, 105, 102, 108, 111, 119, 46, 99, 111, 109]
        [114, 101, 109, 101, 109, 98, 101, 114, 95, 119, 101, 98, 95, 97]
        [47] [86, 65, 76, 90]) true bpSafariTest =
      .ok [{ browser := "safari",
             token := utf8DecodeLossy [86, 65, 76, 90],
             source := bpSafariTest.cookiePath }] :=
  C9_single_cookie_container
    [46, 97, 107, 105, 102, 108, 111, 119, 46, 99, 111, 109]
    [114, 101, 109, 101, 109, 98, 101, 114, 95, 119, 101, 98, 95, 97]
    [47] [86, 65, 76, 90] bpSafariTest
    (by decide) (by decide) (by decide) (by decide) (by decide)
    (by decide) (by decide)
